import Mathlib

/-!
The allocation registry of `src/memmgr.c`.

A shallow embedding of the file-scope state of `memmgr.c` and of its ten
public functions, followed by theorems about them.

Conventions of the embedding

* a pointer is a natural number, `0` being `nullptr`;
* a `size_t` is a natural number, and every `size_t` addition, subtraction or
  product of the source that can wrap is written with an explicit
  `% SIZE_MOD`; `block_count++` sits behind the test against `MAXIMAL_BLOCKS`
  and `--block_count` inside a loop whose index is below `block_count`, so
  neither can wrap and both are written without it;
* what the platform decides (the pointer `malloc` returns, the status of
  `posix_memalign`, whether `fopen` succeeds) is an argument of the function
  that makes the call;
* calls that leave the program (error handler, allocator, log, `printf`) are
  appended to the `trace` field, and every access to a slot of
  `allocated_blocks` is appended to the `accesses` field; neither field is
  read by the embedded code;
* the non-Windows branch of every `#ifdef _WIN32` is the one embedded.
-/

namespace Memmgr

/-! ## Data model -/

/-- `#define MAXIMAL_BLOCKS 1024`. -/
def MAXIMAL_BLOCKS : Nat := 1024

/-- Number of values of a 64-bit `size_t`. -/
def SIZE_MOD : Nat := 2 ^ 64

/-- `mem_block_t` of memmgr.h: a pointer and a size. -/
structure mem_block_t where
  ptr : Nat
  size : Nat
deriving DecidableEq, Repr

/-- `mem_tracker_t` of memmgr.c. `file` is `true` when the field points at the
`__FILE__` literal and `false` when it is null; `line` is `__LINE__`. -/
structure mem_tracker_t where
  block : mem_block_t
  file : Bool
  line : Nat
deriving DecidableEq, Repr

/-- The value of a slot after `memset(allocated_blocks, 0, ...)`. -/
def zero_tracker : mem_tracker_t := ⟨⟨0, 0⟩, false, 0⟩

/-- The compound literal `(mem_block_t){nullptr, 0}`. -/
def null_block : mem_block_t := ⟨0, 0⟩

/-- The array type `mem_tracker_t [MAXIMAL_BLOCKS]`. -/
def Table : Type := { l : List mem_tracker_t // l.length = MAXIMAL_BLOCKS }

instance : DecidableEq Table := fun a b =>
  decidable_of_iff (a.val = b.val) Subtype.ext_iff.symm

/-- Slot `index` of the array. An index outside the array (undefined in C, and
never produced when `block_count ≤ MAXIMAL_BLOCKS`) reads as the zero slot. -/
def Table.get (t : Table) (index : Nat) : mem_tracker_t :=
  t.val.getD index zero_tracker

/-- Assignment to slot `index` of the array. -/
def Table.set (t : Table) (index : Nat) (v : mem_tracker_t) : Table :=
  ⟨t.val.set index v, by rw [List.length_set]; exact t.property⟩

/-- The array with every slot zero. -/
def Table.zero : Table :=
  ⟨List.replicate MAXIMAL_BLOCKS zero_tracker, List.length_replicate _ _⟩

/-- What a `mem_error_handler_t` does when called. `default_global_error_handler`
prints the message and calls `exit(EXIT_FAILURE)`; a handler supplied by the
caller either returns (`custom true`) or does not (`custom false`). -/
inductive mem_error_handler_t where
  | default_global_error_handler : mem_error_handler_t
  | custom (returns : Bool) : mem_error_handler_t
deriving DecidableEq, Repr

/-- The string literals memmgr.c passes to the handler and to `log_message`. -/
inductive Message where
  | exceeded_limit : Message
  | alloc_failed : Message
  | alloc_aligned_failed : Message
  | realloc_failed : Message
  | free_failed : Message
  | free_aligned_failed : Message
  | allocated : Message
  | allocated_aligned : Message
  | reallocated : Message
  | freed : Message
  | freed_aligned : Message
  | freed_cleanup : Message
deriving DecidableEq, Repr

/-- The text of each literal. -/
def Message.text : Message → String
  | .exceeded_limit => "Exceeded maximal allocation limit"
  | .alloc_failed => "Failed to allocate memory"
  | .alloc_aligned_failed => "Failed to allocate aligned memory"
  | .realloc_failed => "Failed to reallocate memory"
  | .free_failed => "Failed to free memory"
  | .free_aligned_failed => "Failed to free aligned memory"
  | .allocated => "Allocated memory block"
  | .allocated_aligned => "Allocated aligned memory block"
  | .reallocated => "Reallocated memory block"
  | .freed => "Freed memory block"
  | .freed_aligned => "Freed aligned memory block"
  | .freed_cleanup => "Freed remaining memory blocks during cleanup"

/-- Value of `(double) a / (double) t * 100` in `memmgr_stats`, rounding left
out: `0.0 / 0.0` is a NaN, `a / 0.0` with `a > 0` is infinite. -/
inductive Usage where
  | nan : Usage
  | inf : Usage
  | value (q : ℚ) : Usage
deriving DecidableEq

/-- A call that leaves memmgr.c. -/
inductive Event where
  | error (msg : Message) : Event
  | malloc (size result : Nat) : Event
  | posix_memalign (alignment size status result : Nat) : Event
  | calloc (num size result : Nat) : Event
  | realloc (ptr size result : Nat) : Event
  | free (ptr : Nat) : Event
  | log (sink : Option Nat) (msg : Message) : Event
  | fopen (result : Option Nat) : Event
  | open_failed : Event
  | fclose (file : Nat) : Event
  | atexit_cleanup : Event
  | debug_header : Event
  | debug_block (number ptr size : Nat) : Event
  | stats_allocated (bytes : Nat) : Event
  | stats_freed (bytes : Nat) : Event
  | stats_total (bytes : Nat) : Event
  | stats_usage (percent : Usage) : Event
deriving DecidableEq

/-- An access to a slot of `allocated_blocks`. -/
inductive Access where
  | read (index : Nat) : Access
  | write (index : Nat) : Access
deriving DecidableEq, Repr

/-- Index of the slot an access touches. -/
def Access.index : Access → Nat
  | .read i => i
  | .write i => i

/-- The file-scope variables of memmgr.c, with the two recording fields.
`global_error_handler` and `log_file` are `none` when null; `mem_mutex` is
`true` while the mutex is held. -/
structure Registry where
  allocated_blocks : Table
  block_count : Nat
  allocated_bytes : Nat
  total_freed_bytes : Nat
  global_error_handler : Option mem_error_handler_t
  log_file : Option Nat
  mem_mutex : Bool
  trace : List Event
  accesses : List Access

/-- The variables as their static initialisers leave them. -/
def Registry.static : Registry :=
  { allocated_blocks := Table.zero, block_count := 0, allocated_bytes := 0,
    total_freed_bytes := 0, global_error_handler := none, log_file := none,
    mem_mutex := false, trace := [], accesses := [] }

/-- How a call of a public function ends: it returns a value, or the process
ends inside it (the handler called `exit`, did not return, or was null). -/
inductive Outcome (α : Type) where
  | returned (s : Registry) (value : α) : Outcome α
  | terminated (s : Registry) : Outcome α

/-- The variables when the call ended. -/
def Outcome.state {α : Type} : Outcome α → Registry
  | .returned s _ => s
  | .terminated s => s

/-- The value returned, if the call returned. -/
def Outcome.value {α : Type} : Outcome α → Option α
  | .returned _ v => some v
  | .terminated _ => none

/-! ## Helpers of memmgr.c -/

/-- Appends a call to the trace. -/
def emit (s : Registry) (e : Event) : Registry :=
  { s with trace := s.trace ++ [e] }

/-- The value of `allocated_blocks[index]`. -/
def slot (s : Registry) (index : Nat) : mem_tracker_t :=
  s.allocated_blocks.get index

/-- Reading `allocated_blocks[index]`: the value, and the access recorded. -/
def table_read (s : Registry) (index : Nat) : mem_tracker_t × Registry :=
  (slot s index, { s with accesses := s.accesses ++ [Access.read index] })

/-- The assignment `allocated_blocks[index] = v` (or to a field of it). -/
def table_write (s : Registry) (index : Nat) (v : mem_tracker_t) : Registry :=
  { s with allocated_blocks := s.allocated_blocks.set index v,
           accesses := s.accesses ++ [Access.write index] }

/-- Function `lock_mutex`: `pthread_mutex_lock(&mem_mutex)`. Waiting for another
holder is outside this sequential embedding; on return the mutex is held. -/
def lock_mutex (s : Registry) : Registry :=
  { s with mem_mutex := true }

/-- Function `unlock_mutex`: `pthread_mutex_unlock(&mem_mutex)`. -/
def unlock_mutex (s : Registry) : Registry :=
  { s with mem_mutex := false }

/-- Function `log_message`: one line to `log_file` when it is open, to standard
output otherwise. -/
def log_message (s : Registry) (msg : Message) : Registry :=
  emit s (Event.log s.log_file msg)

/-- The statement `global_error_handler(msg);` followed by the rest `k` of the
function. A handler that returns is recorded and `k` runs; otherwise the
process ends here. -/
def call_error_handler {α : Type} (s : Registry) (msg : Message)
    (k : Registry → Outcome α) : Outcome α :=
  match s.global_error_handler with
  | some (mem_error_handler_t.custom true) => k (emit s (Event.error msg))
  | some _ => Outcome.terminated (emit s (Event.error msg))
  | none => Outcome.terminated s

/-- Unsigned `a + b` on `size_t`. -/
def size_add (a b : Nat) : Nat := (a + b) % SIZE_MOD

/-- Unsigned `a - b` on `size_t`. -/
def size_sub (a b : Nat) : Nat := (a % SIZE_MOD + (SIZE_MOD - b % SIZE_MOD)) % SIZE_MOD

/-- Unsigned `a * b` on `size_t`. -/
def size_mul (a b : Nat) : Nat := (a * b) % SIZE_MOD

/-- The loop head shared by `memmgr_realloc`, `memmgr_free` and
`memmgr_free_aligned`:
`for (index = 0; index < block_count; ++index) if (allocated_blocks[index].block.ptr == ptr)`.
`remaining` is `block_count - index`. Returns the first index whose test
succeeds, if any, and the state with the reads recorded. -/
def scan_from (ptr : Nat) : Nat → Nat → Registry → Option Nat × Registry
  | 0, _, s => (none, s)
  | remaining + 1, index, s =>
    let r := table_read s index
    if r.1.block.ptr = ptr then (some index, r.2)
    else scan_from ptr remaining (index + 1) r.2

/-- The loop head run from `index = 0`. -/
def scan (s : Registry) (ptr : Nat) : Option Nat × Registry :=
  scan_from ptr s.block_count 0 s

/-! ## Public functions -/

/-- Function `memmgr_init`. `fopen_result` is what `fopen(log_path, "a")` returns
when it is called. The mutex is not touched on this platform. -/
def memmgr_init (s : Registry) (error_handler : Option mem_error_handler_t)
    (log_path : Option String) (fopen_result : Option Nat) : Registry :=
  let handler :=
    match error_handler with
    | some h => h
    | none => mem_error_handler_t.default_global_error_handler
  let s := { s with global_error_handler := some handler }
  let s := { s with block_count := 0 }
  let s := { s with allocated_bytes := 0 }
  let s := { s with total_freed_bytes := 0 }
  let s := { s with allocated_blocks := Table.zero }
  let s :=
    match log_path with
    | some _ =>
      let s := emit { s with log_file := fopen_result } (Event.fopen fopen_result)
      match fopen_result with
      | some _ => s
      | none => emit s Event.open_failed
    | none => s
  emit s Event.atexit_cleanup

/-- Function `memmgr_alloc`. `malloc_result` is what `malloc(size)` returns when
it is called. -/
def memmgr_alloc (s0 : Registry) (size : Nat) (malloc_result : Nat) :
    Outcome mem_block_t :=
  let s := lock_mutex s0
  if MAXIMAL_BLOCKS ≤ s.block_count then
    call_error_handler s Message.exceeded_limit fun s =>
      Outcome.returned (unlock_mutex s) null_block
  else
    let ptr := malloc_result
    let s := emit s (Event.malloc size ptr)
    if ptr = 0 then
      call_error_handler s Message.alloc_failed fun s =>
        Outcome.returned (unlock_mutex s) null_block
    else
      let block : mem_block_t := ⟨ptr, size⟩
      let s := table_write s s.block_count ⟨block, true, 94⟩
      let s := { s with block_count := s.block_count + 1 }
      let s := { s with allocated_bytes := size_add s.allocated_bytes size }
      let s := log_message s Message.allocated
      Outcome.returned (unlock_mutex s) block

/-- Function `aligned_alloc_wrapper`: `ptr` starts null, `posix_memalign` stores
`memalign_ptr` in it on success and returns `status`. -/
def aligned_alloc_wrapper (status memalign_ptr : Nat) : Nat :=
  if status ≠ 0 then 0 else memalign_ptr

/-- Function `memmgr_alloc_aligned`. `status` and `memalign_ptr` are what
`posix_memalign(&ptr, alignment, size)` returns and stores when it is called. -/
def memmgr_alloc_aligned (s0 : Registry) (size alignment : Nat)
    (status memalign_ptr : Nat) : Outcome mem_block_t :=
  let s := lock_mutex s0
  if MAXIMAL_BLOCKS ≤ s.block_count then
    call_error_handler s Message.exceeded_limit fun s =>
      Outcome.returned (unlock_mutex s) null_block
  else
    let ptr := aligned_alloc_wrapper status memalign_ptr
    let s := emit s (Event.posix_memalign alignment size status memalign_ptr)
    if ptr = 0 then
      call_error_handler s Message.alloc_aligned_failed fun s =>
        Outcome.returned (unlock_mutex s) null_block
    else
      let block : mem_block_t := ⟨ptr, size⟩
      let s := table_write s s.block_count ⟨block, true, 127⟩
      let s := { s with block_count := s.block_count + 1 }
      let s := { s with allocated_bytes := size_add s.allocated_bytes size }
      let s := log_message s Message.allocated_aligned
      Outcome.returned (unlock_mutex s) block

/-- Function `memmgr_calloc`. `calloc_result` is what `calloc(num, size)` returns
when it is called. -/
def memmgr_calloc (s0 : Registry) (num size : Nat) (calloc_result : Nat) :
    Outcome mem_block_t :=
  let s := lock_mutex s0
  if MAXIMAL_BLOCKS ≤ s.block_count then
    call_error_handler s Message.exceeded_limit fun s =>
      Outcome.returned (unlock_mutex s) null_block
  else
    let ptr := calloc_result
    let s := emit s (Event.calloc num size ptr)
    if ptr = 0 then
      call_error_handler s Message.alloc_failed fun s =>
        Outcome.returned (unlock_mutex s) null_block
    else
      let block : mem_block_t := ⟨ptr, size_mul num size⟩
      let s := table_write s s.block_count ⟨block, true, 148⟩
      let s := { s with block_count := s.block_count + 1 }
      let s := { s with allocated_bytes := size_add s.allocated_bytes (size_mul num size) }
      let s := log_message s Message.allocated
      Outcome.returned (unlock_mutex s) block

/-- Function `memmgr_realloc`. `realloc_result` is what `realloc(block.ptr, size)`
returns when it is called. -/
def memmgr_realloc (s0 : Registry) (block : mem_block_t) (size : Nat)
    (realloc_result : Nat) : Outcome mem_block_t :=
  let s := lock_mutex s0
  match scan s block.ptr with
  | (some index, s) =>
    let new_ptr := realloc_result
    let s := emit s (Event.realloc block.ptr size new_ptr)
    if new_ptr = 0 then
      call_error_handler s Message.realloc_failed fun s =>
        Outcome.returned (unlock_mutex s) null_block
    else
      let delta := size_sub size block.size
      let s := { s with allocated_bytes := size_add s.allocated_bytes delta }
      let s := table_write s index
        { (slot s index) with block := ⟨new_ptr, (slot s index).block.size⟩ }
      let s := table_write s index
        { (slot s index) with block := ⟨(slot s index).block.ptr, size⟩ }
      let s := log_message s Message.reallocated
      Outcome.returned (unlock_mutex s) ⟨new_ptr, size⟩
  | (none, s) =>
    call_error_handler s Message.realloc_failed fun s =>
      Outcome.returned (unlock_mutex s) null_block

/-- Function `memmgr_free`. -/
def memmgr_free (s0 : Registry) (block : mem_block_t) : Outcome Unit :=
  let s := lock_mutex s0
  match scan s block.ptr with
  | (some index, s) =>
    let s := emit s (Event.free block.ptr)
    let r := table_read s index
    let s := { r.2 with total_freed_bytes := size_add r.2.total_freed_bytes r.1.block.size }
    let s := { s with block_count := s.block_count - 1 }
    let r := table_read s s.block_count
    let s := table_write r.2 index r.1
    let s := log_message s Message.freed
    Outcome.returned (unlock_mutex s) ()
  | (none, s) =>
    call_error_handler s Message.free_failed fun s =>
      Outcome.returned (unlock_mutex s) ()

/-- Function `aligned_free_wrapper`: `free(ptr)` on this platform. -/
def aligned_free_wrapper (s : Registry) (ptr : Nat) : Registry :=
  emit s (Event.free ptr)

/-- Function `memmgr_free_aligned`. -/
def memmgr_free_aligned (s0 : Registry) (block : mem_block_t) : Outcome Unit :=
  let s := lock_mutex s0
  match scan s block.ptr with
  | (some index, s) =>
    let r := table_read s index
    let s := aligned_free_wrapper r.2 r.1.block.ptr
    let r := table_read s index
    let s := { r.2 with total_freed_bytes := size_add r.2.total_freed_bytes r.1.block.size }
    let s := { s with block_count := s.block_count - 1 }
    let r := table_read s s.block_count
    let s := table_write r.2 index r.1
    let s := log_message s Message.freed_aligned
    Outcome.returned (unlock_mutex s) ()
  | (none, s) =>
    call_error_handler s Message.free_aligned_failed fun s =>
      Outcome.returned (unlock_mutex s) ()

/-- The loop of `memmgr_cleanup`, `remaining` being `block_count - index`:
`free(allocated_blocks[index].block.ptr); total_freed_bytes += allocated_blocks[index].block.size; log_message(...)`. -/
def cleanup_loop : Nat → Nat → Registry → Registry
  | 0, _, s => s
  | remaining + 1, index, s =>
    let r := table_read s index
    let s := emit r.2 (Event.free r.1.block.ptr)
    let r := table_read s index
    let s := { r.2 with total_freed_bytes := size_add r.2.total_freed_bytes r.1.block.size }
    let s := log_message s Message.freed_cleanup
    cleanup_loop remaining (index + 1) s

/-- Function `memmgr_cleanup`. -/
def memmgr_cleanup (s0 : Registry) : Outcome Unit :=
  let s := lock_mutex s0
  let s := cleanup_loop s.block_count 0 s
  let s := { s with block_count := 0 }
  let s :=
    match s.log_file with
    | some f =>
      let s := emit s (Event.fclose f)
      { s with log_file := none }
    | none => s
  Outcome.returned (unlock_mutex s) ()

/-- The loop of `memmgr_debug`, `remaining` being `block_count - index`: one
`printf` of `index + 1`, the pointer and the size of slot `index`. -/
def debug_loop : Nat → Nat → Registry → Registry
  | 0, _, s => s
  | remaining + 1, index, s =>
    let r1 := table_read s index
    let r2 := table_read r1.2 index
    let s := emit r2.2 (Event.debug_block (index + 1) r1.1.block.ptr r2.1.block.size)
    debug_loop remaining (index + 1) s

/-- Function `memmgr_debug`. The source has no `unlock_mutex()` in this
function. -/
def memmgr_debug (s0 : Registry) : Outcome Unit :=
  let s := lock_mutex s0
  let s := emit s Event.debug_header
  let s := debug_loop s.block_count 0 s
  Outcome.returned s ()

/-- The last argument of the fourth `printf` of `memmgr_stats`,
`(double) allocated / (double) total * 100`. The source divides without a test
of `total`; the cases below are the values that one division takes. -/
def usage_percent (allocated total : Nat) : Usage :=
  if total = 0 then (if allocated = 0 then Usage.nan else Usage.inf)
  else Usage.value ((allocated : ℚ) / (total : ℚ) * 100)

/-- Function `memmgr_stats`. -/
def memmgr_stats (s0 : Registry) : Outcome Unit :=
  let s := lock_mutex s0
  let s := emit s (Event.stats_allocated s.allocated_bytes)
  let s := emit s (Event.stats_freed s.total_freed_bytes)
  let s := emit s (Event.stats_total (size_add s.allocated_bytes s.total_freed_bytes))
  let s := emit s (Event.stats_usage
    (usage_percent s.allocated_bytes (size_add s.allocated_bytes s.total_freed_bytes)))
  Outcome.returned (unlock_mutex s) ()

/-! ## Sequences of calls -/

/-- A call of a public function other than `memmgr_init`, with its arguments
and with what the platform answers if it is asked. -/
inductive Op where
  | alloc (size malloc_result : Nat) : Op
  | alloc_aligned (size alignment status memalign_ptr : Nat) : Op
  | calloc (num size calloc_result : Nat) : Op
  | realloc (block : mem_block_t) (size realloc_result : Nat) : Op
  | free (block : mem_block_t) : Op
  | free_aligned (block : mem_block_t) : Op
  | cleanup : Op
  | debug : Op
  | stats : Op
deriving DecidableEq, Repr

/-- Drops the type of the value: the block returned, if the function returns
one. -/
def Outcome.block : Outcome mem_block_t → Outcome (Option mem_block_t)
  | .returned s b => .returned s (some b)
  | .terminated s => .terminated s

/-- The same for a function returning `void`. -/
def Outcome.void : Outcome Unit → Outcome (Option mem_block_t)
  | .returned s _ => .returned s none
  | .terminated s => .terminated s

/-- Runs one call. -/
def step (s : Registry) : Op → Outcome (Option mem_block_t)
  | .alloc size r => (memmgr_alloc s size r).block
  | .alloc_aligned size alignment status r =>
    (memmgr_alloc_aligned s size alignment status r).block
  | .calloc num size r => (memmgr_calloc s num size r).block
  | .realloc b size r => (memmgr_realloc s b size r).block
  | .free b => (memmgr_free s b).void
  | .free_aligned b => (memmgr_free_aligned s b).void
  | .cleanup => (memmgr_cleanup s).void
  | .debug => (memmgr_debug s).void
  | .stats => (memmgr_stats s).void

/-! ## Definitions used by the statements -/

/-- What the loop head computes, without the recording: the first index in
`index .. index + remaining - 1` whose slot holds `ptr`. -/
def first_match (t : Table) (ptr : Nat) : Nat → Nat → Option Nat
  | 0, _ => none
  | remaining + 1, index =>
    if (t.get index).block.ptr = ptr then some index
    else first_match t ptr remaining (index + 1)

/-- The first live slot holding `ptr`, if any. -/
def find_block (s : Registry) (ptr : Nat) : Option Nat :=
  first_match s.allocated_blocks ptr s.block_count 0

/-- Number of slots the loop head reads when it starts at `index` with
`remaining` slots to go and ends with `result`. -/
def reads_count : Option Nat → Nat → Nat → Nat
  | some j, _, index => j + 1 - index
  | none, remaining, _ => remaining

/-- The state with reads of the slots `l` recorded. -/
def with_reads (s : Registry) (l : List Nat) : Registry :=
  { s with accesses := s.accesses ++ l.map Access.read }

/-- The state a failing path returns: the mutex released, `calls` added to the
trace, the slots `reads` read, nothing else changed. -/
def failed (s : Registry) (calls : List Event) (reads : List Nat) : Registry :=
  { s with mem_mutex := false, trace := s.trace ++ calls,
           accesses := s.accesses ++ reads.map Access.read }

/-- The state a successful allocation returns. -/
def alloc_done (s : Registry) (block : mem_block_t) (line : Nat) (call : Event)
    (msg : Message) : Registry :=
  { s with allocated_blocks := s.allocated_blocks.set s.block_count ⟨block, true, line⟩,
           block_count := s.block_count + 1,
           allocated_bytes := size_add s.allocated_bytes block.size,
           mem_mutex := false,
           trace := s.trace ++ [call, Event.log s.log_file msg],
           accesses := s.accesses ++ [Access.write s.block_count] }

/-- The state a successful `memmgr_realloc` returns when slot `index` matched. -/
def realloc_done (s : Registry) (index : Nat) (block : mem_block_t) (size new_ptr : Nat) :
    Registry :=
  { s with allocated_blocks :=
             s.allocated_blocks.set index ⟨⟨new_ptr, size⟩, (slot s index).file, (slot s index).line⟩,
           allocated_bytes := size_add s.allocated_bytes (size_sub size block.size),
           mem_mutex := false,
           trace := s.trace ++ [Event.realloc block.ptr size new_ptr,
             Event.log s.log_file Message.reallocated],
           accesses := s.accesses ++ (List.range (index + 1)).map Access.read ++
             [Access.write index, Access.write index] }

/-- The state `memmgr_free` and `memmgr_free_aligned` return when slot `index`
matched, up to the accesses recorded. -/
def free_done (s : Registry) (index : Nat) (ptr : Nat) (msg : Message)
    (accesses : List Access) : Registry :=
  { s with allocated_blocks := s.allocated_blocks.set index (slot s (s.block_count - 1)),
           block_count := s.block_count - 1,
           total_freed_bytes := size_add s.total_freed_bytes (slot s index).block.size,
           mem_mutex := false,
           trace := s.trace ++ [Event.free ptr, Event.log s.log_file msg],
           accesses := s.accesses ++ accesses }

/-- The recorded sizes of the live records, in table order. -/
def live_sizes (s : Registry) : List Nat :=
  (List.range s.block_count).map fun i => (slot s i).block.size

/-- The blocks of the live records, in table order. -/
def live_blocks (s : Registry) : List mem_block_t :=
  (List.range s.block_count).map fun i => (slot s i).block

/-- The calls made between state `s` and the later state `s'`. -/
def new_trace (s s' : Registry) : List Event :=
  s'.trace.drop s.trace.length

/-- The slot accesses made between state `s` and the later state `s'`. -/
def new_accesses (s s' : Registry) : List Access :=
  s'.accesses.drop s.accesses.length

/-- The error handler was called between `s` and `s'`. -/
def handler_called (s s' : Registry) : Prop :=
  ∃ msg, Event.error msg ∈ new_trace s s'

/-- The table, the live count and the two byte counters are the same in both
states. -/
def unchanged (s s' : Registry) : Prop :=
  s'.allocated_blocks = s.allocated_blocks ∧ s'.block_count = s.block_count ∧
  s'.allocated_bytes = s.allocated_bytes ∧ s'.total_freed_bytes = s.total_freed_bytes

/-- The handler installed is one that returns to its caller. -/
def recovering (s : Registry) : Prop :=
  s.global_error_handler = some (mem_error_handler_t.custom true)

/-- No live record holds `ptr`. -/
def untracked (s : Registry) (ptr : Nat) : Prop :=
  ∀ i, i < s.block_count → (slot s i).block.ptr ≠ ptr

/-- The state `memmgr_init(nullptr, nullptr)` produces from the static one. -/
def fresh : Registry := memmgr_init Registry.static none none none

/-- The state after `memmgr_alloc(512)` on `fresh`, `malloc` returning 7. -/
def one_block : Registry := (memmgr_alloc fresh 512 7).state

/-- The state after `memmgr_alloc(5)` on `fresh`, `malloc` returning 7. -/
def stale_block : Registry := (memmgr_alloc fresh 5 7).state

/-- The state `memmgr_init(handler, nullptr)` produces from the static one, for a
handler that returns. -/
def fresh_recovering : Registry :=
  memmgr_init Registry.static (some (mem_error_handler_t.custom true)) none none

/-- The state after `n` calls `memmgr_alloc(16)`, the i-th `malloc` returning `i`. -/
def filled : Nat → Registry
  | 0 => fresh_recovering
  | n + 1 => (memmgr_alloc (filled n) 16 (n + 1)).state

/-- The state after `memmgr_alloc(512)` on `fresh_recovering`, `malloc` returning 7. -/
def one_recovering : Registry := (memmgr_alloc fresh_recovering 512 7).state

/-- What every failing path of a public function leaves behind, whatever the
handler does: table, count and counters as before, only the slots `reads`
read, and either no return or the return of `v`. -/
def quiet {α : Type} (s : Registry) (o : Outcome α) (reads : List Nat) (v : α) : Prop :=
  unchanged s o.state ∧ o.state.accesses = s.accesses ++ reads.map Access.read ∧
  (o.value = none ∨ o.value = some v)

/-- The `size_t` arguments of a call are below `SIZE_MOD`. -/
def Op.typed : Op → Prop
  | .alloc size _ => size < SIZE_MOD
  | .alloc_aligned size alignment _ _ => size < SIZE_MOD ∧ alignment < SIZE_MOD
  | .calloc num size _ => num < SIZE_MOD ∧ size < SIZE_MOD
  | .realloc block size _ => block.size < SIZE_MOD ∧ size < SIZE_MOD
  | .free block => block.size < SIZE_MOD
  | .free_aligned block => block.size < SIZE_MOD
  | .cleanup => True
  | .debug => True
  | .stats => True

/-- The call is a `memmgr_realloc` that succeeds (its pointer matches a live
record and `realloc` returns a non-null pointer) with a new size below the size
stored in that record. -/
def shrinks (s : Registry) : Op → Prop
  | .realloc block size r =>
    ∃ i, find_block s block.ptr = some i ∧ r ≠ 0 ∧ size < (slot s i).block.size
  | _ => False

/-- The number of bytes a call asks to add to `allocated_bytes`: the size of an
allocation, and for a `memmgr_realloc` whose pointer matches a live record the
growth of the new size over the size stored in that record. -/
def requested (s : Registry) : Op → Nat
  | .alloc size _ => size
  | .alloc_aligned size _ _ _ => size
  | .calloc num size _ => size_mul num size
  | .realloc block size _ =>
    match find_block s block.ptr with
    | some i => size - (slot s i).block.size
    | none => 0
  | _ => 0

/-- No two live records hold the same pointer. -/
def distinct_ptrs (s : Registry) : Prop :=
  ∀ i j, i < s.block_count → j < s.block_count →
    (slot s i).block.ptr = (slot s j).block.ptr → i = j

/-- Some live record holds `ptr`. -/
def tracked (s : Registry) (ptr : Nat) : Prop :=
  ∃ i, i < s.block_count ∧ (slot s i).block.ptr = ptr

/-- The assumption on the underlying allocator at one call: a non-null pointer
coming from an allocate call is held by no live record, one coming from a
resize call is the pointer passed in or is held by no live record. -/
def allocator_fresh (s : Registry) : Op → Prop
  | .alloc _ r => r ≠ 0 → untracked s r
  | .alloc_aligned _ _ status r =>
    aligned_alloc_wrapper status r ≠ 0 → untracked s (aligned_alloc_wrapper status r)
  | .calloc _ _ r => r ≠ 0 → untracked s r
  | .realloc block _ r => r ≠ 0 → r = block.ptr ∨ untracked s r
  | _ => True

/-- Following the words of the claim: the pointers returned by a successful
allocation or reallocation and since neither freed nor replaced, after a call
`op` that returned `result`, `held` being those before the call. A successful
call is one that returns a block with a non-null pointer. -/
def outstanding_after (held : List Nat) : Op → Option mem_block_t → List Nat
  | .alloc _ _, some b => if b.ptr = 0 then held else b.ptr :: held
  | .alloc_aligned _ _ _ _, some b => if b.ptr = 0 then held else b.ptr :: held
  | .calloc _ _ _, some b => if b.ptr = 0 then held else b.ptr :: held
  | .realloc block _ _, some b =>
    if b.ptr = 0 then held else b.ptr :: held.filter fun p => p ≠ block.ptr
  | .free block, _ => held.filter fun p => p ≠ block.ptr
  | .free_aligned block, _ => held.filter fun p => p ≠ block.ptr
  | .cleanup, _ => []
  | _, _ => held

/-- The states reached from `memmgr_init` by calls that return, under the
assumption on the allocator, each with the pointers outstanding by the history
of the calls. -/
inductive Reachable : Registry → List Nat → Prop where
  | init (s0 : Registry) (handler : Option mem_error_handler_t) (log_path : Option String)
      (fopen_result : Option Nat) :
      Reachable (memmgr_init s0 handler log_path fopen_result) []
  | call (s : Registry) (held : List Nat) (op : Op) (s1 : Registry)
      (result : Option mem_block_t) :
      Reachable s held → allocator_fresh s op → step s op = Outcome.returned s1 result →
      Reachable s1 (outstanding_after held op result)

/-- The live count is within the table, no two live records hold the same
pointer, and the pointers held by live records are those of `held`. -/
def tracks (s : Registry) (held : List Nat) : Prop :=
  s.block_count ≤ MAXIMAL_BLOCKS ∧ distinct_ptrs s ∧ ∀ p, tracked s p ↔ p ∈ held

/-- The `(pointer, size)` pairs printed by the loop of `memmgr_debug` among the
calls `l`, in the order printed. -/
def dumped (l : List Event) : List mem_block_t :=
  l.filterMap fun e =>
    match e with
    | Event.debug_block _ ptr size => some ⟨ptr, size⟩
    | _ => none

/-- The call is one of `memmgr_alloc`, `memmgr_alloc_aligned`, `memmgr_calloc`. -/
def Op.allocates : Op → Prop
  | .alloc _ _ => True
  | .alloc_aligned _ _ _ _ => True
  | .calloc _ _ _ => True
  | _ => False

/-- The states reached from `memmgr_init` by successful allocations, the
allocator never returning a pointer it returned before, and by calls of
`memmgr_free` or `memmgr_free_aligned` on handles returned earlier and not yet
freed; `returned` lists the handles the allocations returned and `freed` the
handles freed. -/
inductive AllocFreeRun : Registry → List mem_block_t → List mem_block_t → Prop where
  | init (s0 : Registry) (handler : Option mem_error_handler_t) (log_path : Option String)
      (fopen_result : Option Nat) :
      AllocFreeRun (memmgr_init s0 handler log_path fopen_result) [] []
  | alloc (s : Registry) (returned freed : List mem_block_t) (op : Op) (s1 : Registry)
      (b : mem_block_t) :
      AllocFreeRun s returned freed → op.allocates →
      step s op = Outcome.returned s1 (some b) → b.ptr ≠ 0 →
      (∀ h, h ∈ returned → h.ptr ≠ b.ptr) →
      AllocFreeRun s1 (b :: returned) freed
  | free (s : Registry) (returned freed : List mem_block_t) (h : mem_block_t)
      (s1 : Registry) :
      AllocFreeRun s returned freed → h ∈ returned → h ∉ freed →
      step s (Op.free h) = Outcome.returned s1 none →
      AllocFreeRun s1 returned (h :: freed)
  | free_aligned (s : Registry) (returned freed : List mem_block_t) (h : mem_block_t)
      (s1 : Registry) :
      AllocFreeRun s returned freed → h ∈ returned → h ∉ freed →
      step s (Op.free_aligned h) = Outcome.returned s1 none →
      AllocFreeRun s1 returned (h :: freed)

/-- The live count is within the table, no two live records hold the same
pointer, the blocks of the live records are the handles returned and not
freed, no handle was returned twice, every handle freed was returned, and the
live count is the number returned less the number freed. -/
def accounts (s : Registry) (returned freed : List mem_block_t) : Prop :=
  s.block_count ≤ MAXIMAL_BLOCKS ∧ distinct_ptrs s ∧
  (∀ b, (∃ i, i < s.block_count ∧ (slot s i).block = b) ↔ (b ∈ returned ∧ b ∉ freed)) ∧
  returned.Nodup ∧
  (∀ h, h ∈ freed → h ∈ returned) ∧
  s.block_count + freed.length = returned.length

/-- The state after `memmgr_alloc(1024)` twice on `fresh`, `malloc` returning 7
and then 8. -/
def two_blocks : Registry :=
  (memmgr_alloc (memmgr_alloc fresh 1024 7).state 1024 8).state

/-- The state after `memmgr_free` of the handle `(7, 1024)` on `two_blocks`. -/
def second_block_left : Registry := (memmgr_free two_blocks ⟨7, 1024⟩).state

/-- The number of calls of the error handler among the calls `l`. -/
def handler_calls (l : List Event) : Nat :=
  (l.filter fun e =>
    match e with
    | Event.error _ => true
    | _ => false).length

/-- The handle passed to `memmgr_realloc` carries the size stored in the live
record its pointer matches; no condition on the other calls. -/
def honest_handle (s : Registry) : Op → Prop
  | .realloc block _ _ =>
    ∀ i, find_block s block.ptr = some i → block.size = (slot s i).block.size
  | _ => True

/-- The states reached from `memmgr_init` by calls that return, whatever the
allocator answers, every handle passed to `memmgr_realloc` carrying the size
stored in its matching record. -/
inductive HonestRun : Registry → Prop where
  | init (s0 : Registry) (handler : Option mem_error_handler_t) (log_path : Option String)
      (fopen_result : Option Nat) :
      HonestRun (memmgr_init s0 handler log_path fopen_result)
  | call (s : Registry) (op : Op) (s1 : Registry) (result : Option mem_block_t) :
      HonestRun s → honest_handle s op → step s op = Outcome.returned s1 result →
      HonestRun s1

/-- The live count is within the table, both counters are `size_t` values, and
`allocated_bytes` is `total_freed_bytes` plus the sizes of the live records,
modulo 2^64. -/
def conserved (s : Registry) : Prop :=
  s.block_count ≤ MAXIMAL_BLOCKS ∧ s.allocated_bytes < SIZE_MOD ∧
  s.total_freed_bytes < SIZE_MOD ∧
  s.allocated_bytes = (s.total_freed_bytes + (live_sizes s).sum) % SIZE_MOD

/-! ## Lemmas about the embedded functions -/

theorem Table.get_set_self (t : Table) (i : Nat) (v : mem_tracker_t) (h : i < MAXIMAL_BLOCKS) :
    (t.set i v).get i = v := by
  have hl : i < t.val.length := by rw [t.property]; exact h
  simp [Table.get, Table.set, List.getD_eq_getElem?_getD, List.getElem?_set, hl, h]

theorem Table.get_set_ne (t : Table) (i j : Nat) (v : mem_tracker_t) (h : i ≠ j) :
    (t.set i v).get j = t.get j := by
  simp [Table.get, Table.set, List.getD_eq_getElem?_getD, List.getElem?_set, h]

theorem Table.get_zero (i : Nat) : Table.zero.get i = zero_tracker := by
  simp only [Table.get, Table.zero, List.getD_eq_getElem?_getD]
  by_cases h : i < MAXIMAL_BLOCKS
  · simp [List.getElem?_replicate, h]
  · simp [List.getElem?_replicate, h]

theorem Table.set_set (t : Table) (i : Nat) (v w : mem_tracker_t) :
    (t.set i v).set i w = t.set i w := by
  apply Subtype.ext
  simp [Table.set, List.set_set]

theorem Table.set_outside (t : Table) (i : Nat) (v : mem_tracker_t) (h : MAXIMAL_BLOCKS ≤ i) :
    t.set i v = t := by
  apply Subtype.ext
  have hl : t.val.length ≤ i := by rw [t.property]; exact h
  simp [Table.set, List.set_eq_of_length_le hl]

theorem first_match_some {t : Table} {ptr : Nat} : ∀ {k i j : Nat},
    first_match t ptr k i = some j →
    i ≤ j ∧ j < i + k ∧ (t.get j).block.ptr = ptr ∧
      ∀ m, i ≤ m → m < j → (t.get m).block.ptr ≠ ptr := by
  intro k
  induction k with
  | zero => intro i j h; simp [first_match] at h
  | succ k ih =>
    intro i j h
    unfold first_match at h
    by_cases hm : (t.get i).block.ptr = ptr
    · rw [if_pos hm] at h
      have hj : i = j := Option.some.inj h
      subst hj
      exact ⟨le_refl _, by omega, hm, fun m h1 h2 => absurd h1 (by omega)⟩
    · rw [if_neg hm] at h
      obtain ⟨h1, h2, h3, h4⟩ := ih h
      refine ⟨by omega, by omega, h3, ?_⟩
      intro m hm1 hm2
      by_cases hmi : m = i
      · subst hmi; exact hm
      · exact h4 m (by omega) hm2

theorem first_match_none {t : Table} {ptr : Nat} : ∀ {k i : Nat},
    first_match t ptr k i = none ↔
      ∀ m, i ≤ m → m < i + k → (t.get m).block.ptr ≠ ptr := by
  intro k
  induction k with
  | zero =>
    intro i
    simp only [first_match, true_iff]
    intro m h1 h2
    omega
  | succ k ih =>
    intro i
    unfold first_match
    by_cases hm : (t.get i).block.ptr = ptr
    · rw [if_pos hm]
      constructor
      · intro h; cases h
      · intro h; exact absurd hm (h i (le_refl _) (by omega))
    · rw [if_neg hm, ih]
      constructor
      · intro h m h1 h2
        by_cases hmi : m = i
        · subst hmi; exact hm
        · exact h m (by omega) (by omega)
      · intro h m h1 h2
        exact h m (by omega) (by omega)

theorem first_match_of_first {t : Table} {ptr : Nat} {k i j : Nat}
    (h1 : i ≤ j) (h2 : j < i + k) (h3 : (t.get j).block.ptr = ptr)
    (h4 : ∀ m, i ≤ m → m < j → (t.get m).block.ptr ≠ ptr) :
    first_match t ptr k i = some j := by
  cases hf : first_match t ptr k i with
  | none => exact absurd h3 (first_match_none.mp hf j h1 h2)
  | some j2 =>
    obtain ⟨a1, a2, a3, a4⟩ := first_match_some hf
    have : j2 = j := by
      rcases Nat.lt_trichotomy j2 j with hlt | heq | hgt
      · exact absurd a3 (h4 j2 a1 hlt)
      · exact heq
      · exact absurd h3 (a4 j h1 hgt)
    rw [this]

theorem scan_from_eq (ptr : Nat) : ∀ (k i : Nat) (s : Registry),
    scan_from ptr k i s =
      (first_match s.allocated_blocks ptr k i,
       with_reads s
        (List.range' i (reads_count (first_match s.allocated_blocks ptr k i) k i))) := by
  intro k
  induction k with
  | zero => intro i s; simp [scan_from, first_match, reads_count, with_reads]
  | succ k ih =>
    intro i s
    unfold scan_from first_match
    by_cases hm : (s.allocated_blocks.get i).block.ptr = ptr
    · simp [table_read, slot, hm, reads_count, with_reads]
    · simp only [table_read, slot, hm, if_false]
      rw [ih]
      simp only
      cases hf : first_match s.allocated_blocks ptr k (i + 1) with
      | none =>
        simp [reads_count, List.range'_succ, with_reads]
      | some j =>
        have hj := (first_match_some hf).1
        have e : j + 1 - i = (j + 1 - (i + 1)) + 1 := by omega
        simp only [reads_count]
        rw [e]
        simp [List.range'_succ, with_reads]

theorem scan_eq (s : Registry) (ptr : Nat) :
    scan s ptr =
      (find_block s ptr,
       with_reads s (List.range (reads_count (find_block s ptr) s.block_count 0))) := by
  unfold scan find_block
  rw [scan_from_eq, List.range_eq_range']

theorem memmgr_alloc_full (s : Registry) (size r : Nat)
    (h : MAXIMAL_BLOCKS ≤ s.block_count)
    (hh : s.global_error_handler = some (mem_error_handler_t.custom true)) :
    memmgr_alloc s size r =
      Outcome.returned (failed s [Event.error Message.exceeded_limit] []) null_block := by
  simp [memmgr_alloc, call_error_handler, lock_mutex, unlock_mutex, emit, failed, h, hh]

theorem memmgr_alloc_null (s : Registry) (size : Nat)
    (h : s.block_count < MAXIMAL_BLOCKS)
    (hh : s.global_error_handler = some (mem_error_handler_t.custom true)) :
    memmgr_alloc s size 0 =
      Outcome.returned
        (failed s [Event.malloc size 0, Event.error Message.alloc_failed] []) null_block := by
  simp [memmgr_alloc, call_error_handler, lock_mutex, unlock_mutex, emit, failed,
    Nat.not_le.mpr h, hh]

theorem memmgr_alloc_ok (s : Registry) (size r : Nat)
    (h : s.block_count < MAXIMAL_BLOCKS) (hr : r ≠ 0) :
    memmgr_alloc s size r =
      Outcome.returned
        (alloc_done s ⟨r, size⟩ 94 (Event.malloc size r) Message.allocated) ⟨r, size⟩ := by
  simp [memmgr_alloc, alloc_done, emit, lock_mutex, unlock_mutex, table_write, log_message,
    Nat.not_le.mpr h, hr]

theorem memmgr_alloc_aligned_full (s : Registry) (size alignment status r : Nat)
    (h : MAXIMAL_BLOCKS ≤ s.block_count)
    (hh : s.global_error_handler = some (mem_error_handler_t.custom true)) :
    memmgr_alloc_aligned s size alignment status r =
      Outcome.returned (failed s [Event.error Message.exceeded_limit] []) null_block := by
  simp [memmgr_alloc_aligned, call_error_handler, lock_mutex, unlock_mutex, emit, failed, h, hh]

theorem memmgr_alloc_aligned_null (s : Registry) (size alignment status r : Nat)
    (h : s.block_count < MAXIMAL_BLOCKS) (hr : aligned_alloc_wrapper status r = 0)
    (hh : s.global_error_handler = some (mem_error_handler_t.custom true)) :
    memmgr_alloc_aligned s size alignment status r =
      Outcome.returned
        (failed s [Event.posix_memalign alignment size status r,
          Event.error Message.alloc_aligned_failed] []) null_block := by
  simp [memmgr_alloc_aligned, call_error_handler, lock_mutex, unlock_mutex, emit, failed,
    Nat.not_le.mpr h, hh, hr]

theorem memmgr_alloc_aligned_ok (s : Registry) (size alignment status r : Nat)
    (h : s.block_count < MAXIMAL_BLOCKS) (hr : aligned_alloc_wrapper status r ≠ 0) :
    memmgr_alloc_aligned s size alignment status r =
      Outcome.returned
        (alloc_done s ⟨aligned_alloc_wrapper status r, size⟩ 127
          (Event.posix_memalign alignment size status r) Message.allocated_aligned)
        ⟨aligned_alloc_wrapper status r, size⟩ := by
  simp [memmgr_alloc_aligned, alloc_done, emit, lock_mutex, unlock_mutex, table_write,
    log_message, Nat.not_le.mpr h, hr]

theorem memmgr_calloc_full (s : Registry) (num size r : Nat)
    (h : MAXIMAL_BLOCKS ≤ s.block_count)
    (hh : s.global_error_handler = some (mem_error_handler_t.custom true)) :
    memmgr_calloc s num size r =
      Outcome.returned (failed s [Event.error Message.exceeded_limit] []) null_block := by
  simp [memmgr_calloc, call_error_handler, lock_mutex, unlock_mutex, emit, failed, h, hh]

theorem memmgr_calloc_null (s : Registry) (num size : Nat)
    (h : s.block_count < MAXIMAL_BLOCKS)
    (hh : s.global_error_handler = some (mem_error_handler_t.custom true)) :
    memmgr_calloc s num size 0 =
      Outcome.returned
        (failed s [Event.calloc num size 0, Event.error Message.alloc_failed] []) null_block := by
  simp [memmgr_calloc, call_error_handler, lock_mutex, unlock_mutex, emit, failed,
    Nat.not_le.mpr h, hh]

theorem memmgr_calloc_ok (s : Registry) (num size r : Nat)
    (h : s.block_count < MAXIMAL_BLOCKS) (hr : r ≠ 0) :
    memmgr_calloc s num size r =
      Outcome.returned
        (alloc_done s ⟨r, size_mul num size⟩ 148 (Event.calloc num size r) Message.allocated)
        ⟨r, size_mul num size⟩ := by
  simp [memmgr_calloc, alloc_done, emit, lock_mutex, unlock_mutex, table_write, log_message,
    Nat.not_le.mpr h, hr]

theorem find_block_lock (s : Registry) (ptr : Nat) :
    find_block (lock_mutex s) ptr = find_block s ptr := rfl

theorem memmgr_free_missing (s : Registry) (block : mem_block_t)
    (h : find_block s block.ptr = none)
    (hh : s.global_error_handler = some (mem_error_handler_t.custom true)) :
    memmgr_free s block =
      Outcome.returned
        (failed s [Event.error Message.free_failed] (List.range s.block_count)) () := by
  simp only [memmgr_free, scan_eq, find_block_lock, h]
  simp [call_error_handler, with_reads, lock_mutex, unlock_mutex, emit, failed, hh, reads_count]

theorem memmgr_free_found (s : Registry) (block : mem_block_t) (index : Nat)
    (h : find_block s block.ptr = some index) :
    memmgr_free s block =
      Outcome.returned
        (free_done s index block.ptr Message.freed
          ((List.range (index + 1)).map Access.read ++
            [Access.read index, Access.read (s.block_count - 1), Access.write index])) () := by
  simp only [memmgr_free, scan_eq, find_block_lock, h]
  simp [with_reads, lock_mutex, unlock_mutex, emit, free_done, reads_count, table_read,
    table_write, log_message, slot]

theorem memmgr_free_aligned_missing (s : Registry) (block : mem_block_t)
    (h : find_block s block.ptr = none)
    (hh : s.global_error_handler = some (mem_error_handler_t.custom true)) :
    memmgr_free_aligned s block =
      Outcome.returned
        (failed s [Event.error Message.free_aligned_failed] (List.range s.block_count)) () := by
  simp only [memmgr_free_aligned, scan_eq, find_block_lock, h]
  simp [call_error_handler, with_reads, lock_mutex, unlock_mutex, emit, failed, hh, reads_count]

theorem memmgr_free_aligned_found (s : Registry) (block : mem_block_t) (index : Nat)
    (h : find_block s block.ptr = some index) :
    memmgr_free_aligned s block =
      Outcome.returned
        (free_done s index (slot s index).block.ptr Message.freed_aligned
          ((List.range (index + 1)).map Access.read ++
            [Access.read index, Access.read index, Access.read (s.block_count - 1),
              Access.write index])) () := by
  simp only [memmgr_free_aligned, scan_eq, find_block_lock, h]
  simp [with_reads, lock_mutex, unlock_mutex, emit, free_done, reads_count, table_read,
    table_write, log_message, slot, aligned_free_wrapper]

theorem memmgr_realloc_missing (s : Registry) (block : mem_block_t) (size r : Nat)
    (h : find_block s block.ptr = none)
    (hh : s.global_error_handler = some (mem_error_handler_t.custom true)) :
    memmgr_realloc s block size r =
      Outcome.returned
        (failed s [Event.error Message.realloc_failed] (List.range s.block_count))
        null_block := by
  simp only [memmgr_realloc, scan_eq, find_block_lock, h]
  simp [call_error_handler, with_reads, lock_mutex, unlock_mutex, emit, failed, hh, reads_count]

theorem memmgr_realloc_null (s : Registry) (block : mem_block_t) (size index : Nat)
    (h : find_block s block.ptr = some index)
    (hh : s.global_error_handler = some (mem_error_handler_t.custom true)) :
    memmgr_realloc s block size 0 =
      Outcome.returned
        (failed s [Event.realloc block.ptr size 0, Event.error Message.realloc_failed]
          (List.range (index + 1)))
        null_block := by
  simp only [memmgr_realloc, scan_eq, find_block_lock, h]
  simp [call_error_handler, with_reads, lock_mutex, unlock_mutex, emit, failed, hh, reads_count]

theorem memmgr_realloc_ok (s : Registry) (block : mem_block_t) (size r index : Nat)
    (h : find_block s block.ptr = some index) (hr : r ≠ 0) :
    memmgr_realloc s block size r =
      Outcome.returned (realloc_done s index block size r) ⟨r, size⟩ := by
  simp only [memmgr_realloc, scan_eq, find_block_lock, h]
  have hi : index < MAXIMAL_BLOCKS ∨ MAXIMAL_BLOCKS ≤ index := Nat.lt_or_ge _ _
  simp [with_reads, lock_mutex, unlock_mutex, emit, realloc_done, reads_count,
    table_write, log_message, slot, hr]
  rcases hi with hi | hi
  · rw [Table.get_set_self _ _ _ hi, Table.set_set]
  · rw [Table.set_outside _ _ _ hi, Table.set_outside _ _ _ hi, Table.set_outside _ _ _ hi]

theorem find_block_none_iff (s : Registry) (ptr : Nat) :
    find_block s ptr = none ↔ untracked s ptr := by
  unfold find_block untracked slot
  rw [first_match_none]
  constructor
  · intro h i hi; exact h i (Nat.zero_le _) (by omega)
  · intro h m _ hm; exact h m (by omega)

theorem find_block_some_iff (s : Registry) (ptr i : Nat) :
    find_block s ptr = some i ↔
      i < s.block_count ∧ (slot s i).block.ptr = ptr ∧
        ∀ j, j < i → (slot s j).block.ptr ≠ ptr := by
  unfold find_block slot
  constructor
  · intro h
    obtain ⟨_, h2, h3, h4⟩ := first_match_some h
    exact ⟨by omega, h3, fun j hj => h4 j (Nat.zero_le _) hj⟩
  · rintro ⟨h1, h2, h3⟩
    exact first_match_of_first (Nat.zero_le _) (by omega) h2 (fun m _ hm => h3 m hm)

theorem new_trace_append (s s' : Registry) (l : List Event) (h : s'.trace = s.trace ++ l) :
    new_trace s s' = l := by
  simp [new_trace, h]

theorem new_accesses_append (s s' : Registry) (l : List Access)
    (h : s'.accesses = s.accesses ++ l) : new_accesses s s' = l := by
  simp [new_accesses, h]

theorem size_add_size_add (a b c : Nat) : size_add (size_add a b) c = size_add a (b + c) := by
  unfold size_add
  rw [Nat.mod_add_mod, Nat.add_assoc]

theorem cleanup_loop_spec : ∀ (k i : Nat) (s : Registry),
    (cleanup_loop k i s).allocated_blocks = s.allocated_blocks ∧
    (cleanup_loop k i s).block_count = s.block_count ∧
    (cleanup_loop k i s).allocated_bytes = s.allocated_bytes ∧
    (cleanup_loop k i s).global_error_handler = s.global_error_handler ∧
    (cleanup_loop k i s).log_file = s.log_file ∧
    (cleanup_loop k i s).mem_mutex = s.mem_mutex ∧
    (∃ l, (cleanup_loop k i s).trace = s.trace ++ l ∧ ∀ e ∈ l, ∀ msg, e ≠ Event.error msg) ∧
    (∃ l, (cleanup_loop k i s).accesses = s.accesses ++ l ∧
      ∀ a ∈ l, ∃ j, a = Access.read j ∧ i ≤ j ∧ j < i + k) ∧
    (s.total_freed_bytes < SIZE_MOD →
      (cleanup_loop k i s).total_freed_bytes =
        (s.total_freed_bytes +
          ((List.range' i k).map fun j => (slot s j).block.size).sum) % SIZE_MOD) := by
  intro k
  induction k with
  | zero =>
    intro i s
    refine ⟨rfl, rfl, rfl, rfl, rfl, rfl, ⟨[], by simp [cleanup_loop], by simp⟩,
      ⟨[], by simp [cleanup_loop], by simp⟩, ?_⟩
    intro h
    simp [cleanup_loop, Nat.mod_eq_of_lt h]
  | succ k ih =>
    intro i s
    unfold cleanup_loop
    simp only []
    generalize hs1 : (log_message
      { (table_read (emit (table_read s i).2 (Event.free (table_read s i).1.block.ptr)) i).2 with
        total_freed_bytes := size_add
          (table_read (emit (table_read s i).2 (Event.free (table_read s i).1.block.ptr)) i).2.total_freed_bytes
          (table_read (emit (table_read s i).2 (Event.free (table_read s i).1.block.ptr)) i).1.block.size }
      Message.freed_cleanup) = s1
    have e1 : s1.allocated_blocks = s.allocated_blocks := by subst hs1; rfl
    have e2 : s1.block_count = s.block_count := by subst hs1; rfl
    have e3 : s1.allocated_bytes = s.allocated_bytes := by subst hs1; rfl
    have e4 : s1.global_error_handler = s.global_error_handler := by subst hs1; rfl
    have e5 : s1.log_file = s.log_file := by subst hs1; rfl
    have e6 : s1.mem_mutex = s.mem_mutex := by subst hs1; rfl
    have e7 : s1.trace = s.trace ++ [Event.free (slot s i).block.ptr,
        Event.log s.log_file Message.freed_cleanup] := by
      subst hs1; simp [log_message, emit, table_read]
    have e8 : s1.accesses = s.accesses ++ [Access.read i, Access.read i] := by
      subst hs1; simp [log_message, emit, table_read]
    have e9 : s1.total_freed_bytes = size_add s.total_freed_bytes (slot s i).block.size := by
      subst hs1; simp [log_message, emit, table_read, slot]
    obtain ⟨a1, a2, a3, a4, a5, a6, ⟨l7, a7, b7⟩, ⟨l8, a8, b8⟩, a9⟩ := ih (i + 1) s1
    refine ⟨a1.trans e1, a2.trans e2, a3.trans e3, a4.trans e4, a5.trans e5, a6.trans e6,
      ⟨Event.free (slot s i).block.ptr :: Event.log s.log_file Message.freed_cleanup :: l7,
        by rw [a7, e7]; simp, ?_⟩,
      ⟨Access.read i :: Access.read i :: l8, by rw [a8, e8]; simp, ?_⟩, ?_⟩
    · intro e he msg
      simp only [List.mem_cons] at he
      rcases he with he | he | he
      · rw [he]; intro hc; cases hc
      · rw [he]; intro hc; cases hc
      · exact b7 e he msg
    · intro a ha
      simp only [List.mem_cons] at ha
      rcases ha with ha | ha | ha
      · exact ⟨i, ha, le_refl _, by omega⟩
      · exact ⟨i, ha, le_refl _, by omega⟩
      · obtain ⟨j, h1, h2, h3⟩ := b8 a ha
        exact ⟨j, h1, by omega, by omega⟩
    · intro h
      have hlt : s1.total_freed_bytes < SIZE_MOD := by
        rw [e9]; exact Nat.mod_lt _ (by decide)
      rw [a9 hlt, e9]
      have hslots : ∀ j, slot s1 j = slot s j := by intro j; simp [slot, e1]
      simp only [hslots, List.range'_succ, List.map_cons, List.sum_cons]
      unfold size_add
      rw [Nat.mod_add_mod, Nat.add_assoc]

theorem memmgr_cleanup_spec (s : Registry) :
    ∃ s1, memmgr_cleanup s = Outcome.returned s1 () ∧
      s1.allocated_blocks = s.allocated_blocks ∧
      s1.block_count = 0 ∧
      s1.allocated_bytes = s.allocated_bytes ∧
      s1.global_error_handler = s.global_error_handler ∧
      s1.log_file = none ∧
      s1.mem_mutex = false ∧
      (∃ l, s1.trace = s.trace ++ l ∧ ∀ e ∈ l, ∀ msg, e ≠ Event.error msg) ∧
      (∃ l, s1.accesses = s.accesses ++ l ∧
        ∀ a ∈ l, ∃ j, a = Access.read j ∧ j < s.block_count) ∧
      (s.total_freed_bytes < SIZE_MOD →
        s1.total_freed_bytes = (s.total_freed_bytes + (live_sizes s).sum) % SIZE_MOD) ∧
      (s.total_freed_bytes + (live_sizes s).sum < SIZE_MOD →
        s1.total_freed_bytes = s.total_freed_bytes + (live_sizes s).sum) := by
  obtain ⟨a1, a2, a3, a4, a5, a6, ⟨l7, a7, b7⟩, ⟨l8, a8, b8⟩, a9⟩ :=
    cleanup_loop_spec (lock_mutex s).block_count 0 (lock_mutex s)
  have hsum : ((List.range' 0 (lock_mutex s).block_count).map
      fun j => (slot (lock_mutex s) j).block.size).sum = (live_sizes s).sum := by
    rw [← List.range_eq_range']; rfl
  rw [hsum] at a9
  have hfreed : s.total_freed_bytes < SIZE_MOD →
      (cleanup_loop (lock_mutex s).block_count 0 (lock_mutex s)).total_freed_bytes =
        (s.total_freed_bytes + (live_sizes s).sum) % SIZE_MOD := a9
  have hfreed2 : s.total_freed_bytes + (live_sizes s).sum < SIZE_MOD →
      (cleanup_loop (lock_mutex s).block_count 0 (lock_mutex s)).total_freed_bytes =
        s.total_freed_bytes + (live_sizes s).sum := by
    intro h
    rw [hfreed (by omega), Nat.mod_eq_of_lt h]
  have hacc : ∀ a ∈ l8, ∃ j, a = Access.read j ∧ j < s.block_count := by
    intro a ha
    obtain ⟨j, h1, _, h3⟩ := b8 a ha
    exact ⟨j, h1, by simpa [lock_mutex] using h3⟩
  unfold memmgr_cleanup
  simp only []
  cases hlog : (cleanup_loop (lock_mutex s).block_count 0 (lock_mutex s)).log_file with
  | none =>
    refine ⟨_, rfl, ?_, rfl, ?_, ?_, ?_, rfl, ⟨l7, ?_, b7⟩, ⟨l8, ?_, hacc⟩, ?_, ?_⟩
    · simpa [unlock_mutex, hlog] using a1
    · simpa [unlock_mutex, hlog] using a3
    · simpa [unlock_mutex, hlog] using a4
    · simp [unlock_mutex, hlog]
    · simpa [unlock_mutex, hlog] using a7
    · simpa [unlock_mutex, hlog] using a8
    · simpa [unlock_mutex, hlog] using hfreed
    · simpa [unlock_mutex, hlog] using hfreed2
  | some f =>
    refine ⟨_, rfl, ?_, rfl, ?_, ?_, ?_, rfl, ⟨l7 ++ [Event.fclose f], ?_, ?_⟩,
      ⟨l8, ?_, hacc⟩, ?_, ?_⟩
    · simpa [unlock_mutex, hlog, emit] using a1
    · simpa [unlock_mutex, hlog, emit] using a3
    · simpa [unlock_mutex, hlog, emit] using a4
    · simp [unlock_mutex, hlog, emit]
    · simp only [unlock_mutex, hlog, emit, a7]
      simp [lock_mutex]
    · intro e he msg
      rcases List.mem_append.mp he with he | he
      · exact b7 e he msg
      · rw [List.mem_singleton.mp he]; intro hc; cases hc
    · simpa [unlock_mutex, hlog, emit] using a8
    · simpa [unlock_mutex, hlog, emit] using hfreed
    · simpa [unlock_mutex, hlog, emit] using hfreed2

theorem debug_loop_spec : ∀ (k i : Nat) (s : Registry),
    (debug_loop k i s).allocated_blocks = s.allocated_blocks ∧
    (debug_loop k i s).block_count = s.block_count ∧
    (debug_loop k i s).allocated_bytes = s.allocated_bytes ∧
    (debug_loop k i s).total_freed_bytes = s.total_freed_bytes ∧
    (debug_loop k i s).global_error_handler = s.global_error_handler ∧
    (debug_loop k i s).log_file = s.log_file ∧
    (debug_loop k i s).mem_mutex = s.mem_mutex ∧
    (debug_loop k i s).trace = s.trace ++ (List.range' i k).map
      (fun j => Event.debug_block (j + 1) (slot s j).block.ptr (slot s j).block.size) ∧
    (∃ l, (debug_loop k i s).accesses = s.accesses ++ l ∧
      ∀ a ∈ l, ∃ j, a = Access.read j ∧ i ≤ j ∧ j < i + k) := by
  intro k
  induction k with
  | zero =>
    intro i s
    exact ⟨rfl, rfl, rfl, rfl, rfl, rfl, rfl, by simp [debug_loop],
      ⟨[], by simp [debug_loop], by simp⟩⟩
  | succ k ih =>
    intro i s
    unfold debug_loop
    simp only []
    generalize hs1 : emit (table_read (table_read s i).2 i).2
      (Event.debug_block (i + 1) (table_read s i).1.block.ptr
        (table_read (table_read s i).2 i).1.block.size) = s1
    have e1 : s1.allocated_blocks = s.allocated_blocks := by subst hs1; rfl
    have e2 : s1.block_count = s.block_count := by subst hs1; rfl
    have e3 : s1.allocated_bytes = s.allocated_bytes := by subst hs1; rfl
    have e4 : s1.total_freed_bytes = s.total_freed_bytes := by subst hs1; rfl
    have e5 : s1.global_error_handler = s.global_error_handler := by subst hs1; rfl
    have e6 : s1.log_file = s.log_file := by subst hs1; rfl
    have e7 : s1.mem_mutex = s.mem_mutex := by subst hs1; rfl
    have e8 : s1.trace = s.trace ++
        [Event.debug_block (i + 1) (slot s i).block.ptr (slot s i).block.size] := by
      subst hs1; simp [emit, table_read, slot]
    have e9 : s1.accesses = s.accesses ++ [Access.read i, Access.read i] := by
      subst hs1; simp [emit, table_read]
    obtain ⟨a1, a2, a3, a4, a5, a6, a7, a8, ⟨l9, a9, b9⟩⟩ := ih (i + 1) s1
    have hslots : ∀ j, slot s1 j = slot s j := by intro j; simp [slot, e1]
    refine ⟨a1.trans e1, a2.trans e2, a3.trans e3, a4.trans e4, a5.trans e5, a6.trans e6,
      a7.trans e7, ?_, ⟨Access.read i :: Access.read i :: l9, by rw [a9, e9]; simp, ?_⟩⟩
    · rw [a8, e8]
      simp [hslots, List.range'_succ]
    · intro a ha
      simp only [List.mem_cons] at ha
      rcases ha with ha | ha | ha
      · exact ⟨i, ha, le_refl _, by omega⟩
      · exact ⟨i, ha, le_refl _, by omega⟩
      · obtain ⟨j, h1, h2, h3⟩ := b9 a ha
        exact ⟨j, h1, by omega, by omega⟩

theorem memmgr_debug_spec (s : Registry) :
    ∃ s1, memmgr_debug s = Outcome.returned s1 () ∧
      s1.allocated_blocks = s.allocated_blocks ∧
      s1.block_count = s.block_count ∧
      s1.allocated_bytes = s.allocated_bytes ∧
      s1.total_freed_bytes = s.total_freed_bytes ∧
      s1.global_error_handler = s.global_error_handler ∧
      s1.log_file = s.log_file ∧
      s1.mem_mutex = true ∧
      s1.trace = s.trace ++ Event.debug_header :: (List.range s.block_count).map
        (fun j => Event.debug_block (j + 1) (slot s j).block.ptr (slot s j).block.size) ∧
      (∃ l, s1.accesses = s.accesses ++ l ∧
        ∀ a ∈ l, ∃ j, a = Access.read j ∧ j < s.block_count) := by
  obtain ⟨a1, a2, a3, a4, a5, a6, a7, a8, ⟨l9, a9, b9⟩⟩ :=
    debug_loop_spec (emit (lock_mutex s) Event.debug_header).block_count 0
      (emit (lock_mutex s) Event.debug_header)
  refine ⟨_, rfl, a1, a2, a3, a4, a5, a6, a7, ?_, ⟨l9, a9, ?_⟩⟩
  · rw [a8, List.range_eq_range']
    simp [emit, lock_mutex, slot]
  · intro a ha
    obtain ⟨j, h1, _, h3⟩ := b9 a ha
    exact ⟨j, h1, by simpa [lock_mutex, emit] using h3⟩

theorem memmgr_stats_spec (s : Registry) :
    ∃ s1, memmgr_stats s = Outcome.returned s1 () ∧
      s1.allocated_blocks = s.allocated_blocks ∧
      s1.block_count = s.block_count ∧
      s1.allocated_bytes = s.allocated_bytes ∧
      s1.total_freed_bytes = s.total_freed_bytes ∧
      s1.global_error_handler = s.global_error_handler ∧
      s1.log_file = s.log_file ∧
      s1.mem_mutex = false ∧
      s1.trace = s.trace ++ [Event.stats_allocated s.allocated_bytes,
        Event.stats_freed s.total_freed_bytes,
        Event.stats_total (size_add s.allocated_bytes s.total_freed_bytes),
        Event.stats_usage (usage_percent s.allocated_bytes
          (size_add s.allocated_bytes s.total_freed_bytes))] ∧
      s1.accesses = s.accesses := by
  refine ⟨(memmgr_stats s).state, ?_, ?_, ?_, ?_, ?_, ?_, ?_, ?_, ?_, ?_⟩ <;>
  simp [memmgr_stats, Outcome.state, emit, lock_mutex, unlock_mutex]

theorem filled_spec : ∀ n, n ≤ MAXIMAL_BLOCKS →
    (filled n).block_count = n ∧ recovering (filled n) := by
  intro n
  induction n with
  | zero => intro _; exact ⟨rfl, rfl⟩
  | succ n ih =>
    intro hn
    obtain ⟨h1, h2⟩ := ih (by omega)
    have hlt : (filled n).block_count < MAXIMAL_BLOCKS := by omega
    have e : filled (n + 1) = alloc_done (filled n) ⟨n + 1, 16⟩ 94 (Event.malloc 16 (n + 1))
        Message.allocated := by
      show (memmgr_alloc (filled n) 16 (n + 1)).state = _
      rw [memmgr_alloc_ok _ _ _ hlt (Nat.succ_ne_zero n)]
      rfl
    rw [e]
    exact ⟨by simp [alloc_done, h1], by simpa [recovering, alloc_done] using h2⟩

@[simp] theorem Outcome.block_state (o : Outcome mem_block_t) : o.block.state = o.state := by
  cases o <;> rfl

@[simp] theorem Outcome.void_state (o : Outcome Unit) : o.void.state = o.state := by
  cases o <;> rfl

theorem call_error_handler_quiet {α : Type} (s0 s : Registry) (msg : Message) (v : α)
    (reads : List Nat) (h1 : unchanged s0 s)
    (h2 : s.accesses = s0.accesses ++ reads.map Access.read) :
    quiet s0 (call_error_handler s msg fun s => Outcome.returned (unlock_mutex s) v)
      reads v := by
  obtain ⟨a1, a2, a3, a4⟩ := h1
  unfold call_error_handler
  cases hh : s.global_error_handler with
  | none => exact ⟨⟨a1, a2, a3, a4⟩, h2, Or.inl rfl⟩
  | some handler =>
    cases handler with
    | default_global_error_handler => exact ⟨⟨a1, a2, a3, a4⟩, h2, Or.inl rfl⟩
    | custom returns =>
      cases returns with
      | false => exact ⟨⟨a1, a2, a3, a4⟩, h2, Or.inl rfl⟩
      | true => exact ⟨⟨a1, a2, a3, a4⟩, h2, Or.inr rfl⟩

theorem memmgr_alloc_fail (s : Registry) (size r : Nat)
    (h : MAXIMAL_BLOCKS ≤ s.block_count ∨ r = 0) :
    quiet s (memmgr_alloc s size r) [] null_block := by
  unfold memmgr_alloc
  by_cases hc : MAXIMAL_BLOCKS ≤ s.block_count
  · simp only [lock_mutex, hc, if_true]
    exact call_error_handler_quiet s _ _ _ [] ⟨rfl, rfl, rfl, rfl⟩ (by simp)
  · have hr : r = 0 := h.resolve_left hc
    simp only [lock_mutex, hc, hr, if_false, if_true]
    exact call_error_handler_quiet s _ _ _ [] ⟨rfl, rfl, rfl, rfl⟩ (by simp [emit])

theorem memmgr_alloc_aligned_fail (s : Registry) (size alignment status r : Nat)
    (h : MAXIMAL_BLOCKS ≤ s.block_count ∨ aligned_alloc_wrapper status r = 0) :
    quiet s (memmgr_alloc_aligned s size alignment status r) [] null_block := by
  unfold memmgr_alloc_aligned
  by_cases hc : MAXIMAL_BLOCKS ≤ s.block_count
  · simp only [lock_mutex, hc, if_true]
    exact call_error_handler_quiet s _ _ _ [] ⟨rfl, rfl, rfl, rfl⟩ (by simp)
  · have hr : aligned_alloc_wrapper status r = 0 := h.resolve_left hc
    simp only [lock_mutex, hc, hr, if_false, if_true]
    exact call_error_handler_quiet s _ _ _ [] ⟨rfl, rfl, rfl, rfl⟩ (by simp [emit])

theorem memmgr_calloc_fail (s : Registry) (num size r : Nat)
    (h : MAXIMAL_BLOCKS ≤ s.block_count ∨ r = 0) :
    quiet s (memmgr_calloc s num size r) [] null_block := by
  unfold memmgr_calloc
  by_cases hc : MAXIMAL_BLOCKS ≤ s.block_count
  · simp only [lock_mutex, hc, if_true]
    exact call_error_handler_quiet s _ _ _ [] ⟨rfl, rfl, rfl, rfl⟩ (by simp)
  · have hr : r = 0 := h.resolve_left hc
    simp only [lock_mutex, hc, hr, if_false, if_true]
    exact call_error_handler_quiet s _ _ _ [] ⟨rfl, rfl, rfl, rfl⟩ (by simp [emit])

theorem memmgr_free_fail (s : Registry) (block : mem_block_t)
    (h : find_block s block.ptr = none) :
    quiet s (memmgr_free s block) (List.range s.block_count) () := by
  simp only [memmgr_free, scan_eq, find_block_lock, h]
  exact call_error_handler_quiet s _ _ _ _ ⟨rfl, rfl, rfl, rfl⟩
    (by simp [with_reads, lock_mutex, reads_count])

theorem memmgr_free_aligned_fail (s : Registry) (block : mem_block_t)
    (h : find_block s block.ptr = none) :
    quiet s (memmgr_free_aligned s block) (List.range s.block_count) () := by
  simp only [memmgr_free_aligned, scan_eq, find_block_lock, h]
  exact call_error_handler_quiet s _ _ _ _ ⟨rfl, rfl, rfl, rfl⟩
    (by simp [with_reads, lock_mutex, reads_count])

theorem memmgr_realloc_fail_missing (s : Registry) (block : mem_block_t) (size r : Nat)
    (h : find_block s block.ptr = none) :
    quiet s (memmgr_realloc s block size r) (List.range s.block_count) null_block := by
  simp only [memmgr_realloc, scan_eq, find_block_lock, h]
  exact call_error_handler_quiet s _ _ _ _ ⟨rfl, rfl, rfl, rfl⟩
    (by simp [with_reads, lock_mutex, reads_count])

theorem memmgr_realloc_fail_null (s : Registry) (block : mem_block_t) (size index : Nat)
    (h : find_block s block.ptr = some index) :
    quiet s (memmgr_realloc s block size 0) (List.range (index + 1)) null_block := by
  simp only [memmgr_realloc, scan_eq, find_block_lock, h, if_true]
  exact call_error_handler_quiet s _ _ _ _ ⟨rfl, rfl, rfl, rfl⟩
    (by simp [with_reads, lock_mutex, reads_count, emit])

theorem slot_size_le_live (s : Registry) (i : Nat) (h : i < s.block_count) :
    (slot s i).block.size ≤ (live_sizes s).sum := by
  apply List.le_sum_of_mem
  unfold live_sizes
  exact List.mem_map.mpr ⟨i, List.mem_range.mpr h, rfl⟩

theorem size_add_of_lt (a b : Nat) (h : a + b < SIZE_MOD) : size_add a b = a + b :=
  Nat.mod_eq_of_lt h

theorem size_sub_of_le (a b : Nat) (h : b ≤ a) (ha : a < SIZE_MOD) : size_sub a b = a - b := by
  unfold size_sub
  have hb : b < SIZE_MOD := lt_of_le_of_lt h ha
  rw [Nat.mod_eq_of_lt ha, Nat.mod_eq_of_lt hb]
  have e : a + (SIZE_MOD - b) = (a - b) + SIZE_MOD := by omega
  rw [e, Nat.add_mod_right, Nat.mod_eq_of_lt (by omega)]

theorem memmgr_alloc_cases (s : Registry) (size r : Nat) :
    (s.block_count < MAXIMAL_BLOCKS ∧ r ≠ 0 ∧
      memmgr_alloc s size r = Outcome.returned
        (alloc_done s ⟨r, size⟩ 94 (Event.malloc size r) Message.allocated) ⟨r, size⟩) ∨
    quiet s (memmgr_alloc s size r) [] null_block := by
  by_cases h : s.block_count < MAXIMAL_BLOCKS ∧ r ≠ 0
  · exact Or.inl ⟨h.1, h.2, memmgr_alloc_ok s size r h.1 h.2⟩
  · refine Or.inr (memmgr_alloc_fail s size r ?_)
    by_cases hc : MAXIMAL_BLOCKS ≤ s.block_count
    · exact Or.inl hc
    · exact Or.inr (by_contra fun hr => h ⟨Nat.lt_of_not_le hc, hr⟩)

theorem memmgr_alloc_aligned_cases (s : Registry) (size alignment status r : Nat) :
    (s.block_count < MAXIMAL_BLOCKS ∧ aligned_alloc_wrapper status r ≠ 0 ∧
      memmgr_alloc_aligned s size alignment status r = Outcome.returned
        (alloc_done s ⟨aligned_alloc_wrapper status r, size⟩ 127
          (Event.posix_memalign alignment size status r) Message.allocated_aligned)
        ⟨aligned_alloc_wrapper status r, size⟩) ∨
    quiet s (memmgr_alloc_aligned s size alignment status r) [] null_block := by
  by_cases h : s.block_count < MAXIMAL_BLOCKS ∧ aligned_alloc_wrapper status r ≠ 0
  · exact Or.inl ⟨h.1, h.2, memmgr_alloc_aligned_ok s size alignment status r h.1 h.2⟩
  · refine Or.inr (memmgr_alloc_aligned_fail s size alignment status r ?_)
    by_cases hc : MAXIMAL_BLOCKS ≤ s.block_count
    · exact Or.inl hc
    · exact Or.inr (by_contra fun hr => h ⟨Nat.lt_of_not_le hc, hr⟩)

theorem memmgr_calloc_cases (s : Registry) (num size r : Nat) :
    (s.block_count < MAXIMAL_BLOCKS ∧ r ≠ 0 ∧
      memmgr_calloc s num size r = Outcome.returned
        (alloc_done s ⟨r, size_mul num size⟩ 148 (Event.calloc num size r) Message.allocated)
        ⟨r, size_mul num size⟩) ∨
    quiet s (memmgr_calloc s num size r) [] null_block := by
  by_cases h : s.block_count < MAXIMAL_BLOCKS ∧ r ≠ 0
  · exact Or.inl ⟨h.1, h.2, memmgr_calloc_ok s num size r h.1 h.2⟩
  · refine Or.inr (memmgr_calloc_fail s num size r ?_)
    by_cases hc : MAXIMAL_BLOCKS ≤ s.block_count
    · exact Or.inl hc
    · exact Or.inr (by_contra fun hr => h ⟨Nat.lt_of_not_le hc, hr⟩)

theorem memmgr_realloc_cases (s : Registry) (block : mem_block_t) (size r : Nat) :
    (∃ index, find_block s block.ptr = some index ∧ r ≠ 0 ∧
      memmgr_realloc s block size r =
        Outcome.returned (realloc_done s index block size r) ⟨r, size⟩) ∨
    (∃ n, n ≤ s.block_count ∧
      quiet s (memmgr_realloc s block size r) (List.range n) null_block) := by
  cases hf : find_block s block.ptr with
  | none => exact Or.inr ⟨_, le_refl _, memmgr_realloc_fail_missing s block size r hf⟩
  | some index =>
    by_cases hr : r = 0
    · subst hr
      have hi := ((find_block_some_iff s block.ptr index).mp hf).1
      exact Or.inr ⟨index + 1, hi, memmgr_realloc_fail_null s block size index hf⟩
    · exact Or.inl ⟨index, rfl, hr, memmgr_realloc_ok s block size r index hf hr⟩

theorem memmgr_free_cases (s : Registry) (block : mem_block_t) :
    (∃ index, find_block s block.ptr = some index ∧
      memmgr_free s block = Outcome.returned
        (free_done s index block.ptr Message.freed
          ((List.range (index + 1)).map Access.read ++
            [Access.read index, Access.read (s.block_count - 1), Access.write index])) ()) ∨
    (find_block s block.ptr = none ∧
      quiet s (memmgr_free s block) (List.range s.block_count) ()) := by
  cases hf : find_block s block.ptr with
  | none => exact Or.inr ⟨rfl, memmgr_free_fail s block hf⟩
  | some index => exact Or.inl ⟨index, rfl, memmgr_free_found s block index hf⟩

theorem memmgr_free_aligned_cases (s : Registry) (block : mem_block_t) :
    (∃ index, find_block s block.ptr = some index ∧
      memmgr_free_aligned s block = Outcome.returned
        (free_done s index (slot s index).block.ptr Message.freed_aligned
          ((List.range (index + 1)).map Access.read ++
            [Access.read index, Access.read index, Access.read (s.block_count - 1),
              Access.write index])) ()) ∨
    (find_block s block.ptr = none ∧
      quiet s (memmgr_free_aligned s block) (List.range s.block_count) ()) := by
  cases hf : find_block s block.ptr with
  | none => exact Or.inr ⟨rfl, memmgr_free_aligned_fail s block hf⟩
  | some index => exact Or.inl ⟨index, rfl, memmgr_free_aligned_found s block index hf⟩

theorem quiet_accesses {α : Type} {s : Registry} {o : Outcome α} {n : Nat} {v : α}
    (h : quiet s o (List.range n) v) (hn : n ≤ s.block_count) (hinv : s.block_count ≤ MAXIMAL_BLOCKS) :
    o.state.block_count ≤ MAXIMAL_BLOCKS ∧
    ∀ a ∈ new_accesses s o.state,
      a.index < MAXIMAL_BLOCKS ∧ ∀ j, a = Access.read j → j < s.block_count := by
  obtain ⟨⟨_, h2, _, _⟩, hacc, _⟩ := h
  refine ⟨by rw [h2]; exact hinv, ?_⟩
  rw [new_accesses_append s o.state _ hacc]
  intro a ha
  obtain ⟨j, hj, rfl⟩ := List.mem_map.mp ha
  have hj2 := List.mem_range.mp hj
  exact ⟨by simp only [Access.index]; omega, fun k hk => by cases hk; omega⟩

theorem quiet_no_accesses {α : Type} {s : Registry} {o : Outcome α} {v : α}
    (h : quiet s o [] v) (hinv : s.block_count ≤ MAXIMAL_BLOCKS) :
    o.state.block_count ≤ MAXIMAL_BLOCKS ∧
    ∀ a ∈ new_accesses s o.state,
      a.index < MAXIMAL_BLOCKS ∧ ∀ j, a = Access.read j → j < s.block_count :=
  quiet_accesses (n := 0) (by simpa using h) (Nat.zero_le _) hinv

theorem alloc_done_accesses (s : Registry) (block : mem_block_t) (line : Nat) (call : Event)
    (msg : Message) (h : s.block_count < MAXIMAL_BLOCKS) :
    (alloc_done s block line call msg).block_count ≤ MAXIMAL_BLOCKS ∧
    ∀ a ∈ new_accesses s (alloc_done s block line call msg),
      a.index < MAXIMAL_BLOCKS ∧ ∀ j, a = Access.read j → j < s.block_count := by
  refine ⟨by simp only [alloc_done]; omega, ?_⟩
  rw [new_accesses_append s _ [Access.write s.block_count] rfl]
  intro a ha
  rw [List.mem_singleton.mp ha]
  exact ⟨h, fun j hj => by cases hj⟩

theorem free_done_accesses (s : Registry) (index ptr : Nat) (msg : Message)
    (extra : List Access) (hi : index < s.block_count) (hinv : s.block_count ≤ MAXIMAL_BLOCKS)
    (hextra : ∀ a ∈ extra, a.index < s.block_count) :
    (free_done s index ptr msg ((List.range (index + 1)).map Access.read ++ extra)).block_count
      ≤ MAXIMAL_BLOCKS ∧
    ∀ a ∈ new_accesses s
        (free_done s index ptr msg ((List.range (index + 1)).map Access.read ++ extra)),
      a.index < MAXIMAL_BLOCKS ∧ ∀ j, a = Access.read j → j < s.block_count := by
  refine ⟨by simp only [free_done]; omega, ?_⟩
  rw [new_accesses_append s _ _ rfl]
  intro a ha
  have hlt : a.index < s.block_count := by
    rcases List.mem_append.mp ha with h1 | h1
    · obtain ⟨j, hj, rfl⟩ := List.mem_map.mp h1
      have := List.mem_range.mp hj
      simp only [Access.index]; omega
    · exact hextra a h1
  exact ⟨by omega, fun j hj => by subst hj; exact hlt⟩

theorem alloc_done_slot (s : Registry) (b : mem_block_t) (line : Nat) (call : Event)
    (msg : Message) (hc : s.block_count < MAXIMAL_BLOCKS) (j : Nat) :
    slot (alloc_done s b line call msg) j =
      if j = s.block_count then ⟨b, true, line⟩ else slot s j := by
  by_cases h : j = s.block_count
  · subst h
    simp [alloc_done, slot, Table.get_set_self _ _ _ hc]
  · simp [alloc_done, slot, Table.get_set_ne _ _ _ _ (Ne.symm h), h]

theorem realloc_done_slot (s : Registry) (i : Nat) (block : mem_block_t) (size r : Nat)
    (hi : i < MAXIMAL_BLOCKS) (j : Nat) :
    slot (realloc_done s i block size r) j =
      if j = i then ⟨⟨r, size⟩, (slot s i).file, (slot s i).line⟩ else slot s j := by
  by_cases h : j = i
  · subst h
    simp [realloc_done, slot, Table.get_set_self _ _ _ hi]
  · simp [realloc_done, slot, Table.get_set_ne _ _ _ _ (Ne.symm h), h]

theorem free_done_slot (s : Registry) (i ptr : Nat) (msg : Message) (acc : List Access)
    (hi : i < MAXIMAL_BLOCKS) (j : Nat) :
    slot (free_done s i ptr msg acc) j =
      if j = i then slot s (s.block_count - 1) else slot s j := by
  by_cases h : j = i
  · subst h
    simp [free_done, slot, Table.get_set_self _ _ _ hi]
  · simp [free_done, slot, Table.get_set_ne _ _ _ _ (Ne.symm h), h]

theorem untracked_iff_not_tracked (s : Registry) (p : Nat) : untracked s p ↔ ¬ tracked s p := by
  unfold untracked tracked
  constructor
  · rintro h ⟨i, hi, he⟩; exact h i hi he
  · intro h i hi he; exact h ⟨i, hi, he⟩

/-- The live slots after a successful allocation. -/
theorem alloc_done_live {β : Type} (f : mem_tracker_t → β) (s : Registry) (b : mem_block_t)
    (line : Nat) (call : Event) (msg : Message) (hc : s.block_count < MAXIMAL_BLOCKS) (y : β) :
    (∃ j, j < (alloc_done s b line call msg).block_count ∧
        f (slot (alloc_done s b line call msg) j) = y) ↔
      (∃ k, k < s.block_count ∧ f (slot s k) = y) ∨ f ⟨b, true, line⟩ = y := by
  have hn : (alloc_done s b line call msg).block_count = s.block_count + 1 := rfl
  constructor
  · rintro ⟨j, hj, he⟩
    rw [alloc_done_slot s b line call msg hc] at he
    by_cases h : j = s.block_count
    · rw [if_pos h] at he; exact Or.inr he
    · rw [if_neg h] at he; exact Or.inl ⟨j, by omega, he⟩
  · rintro (⟨k, hk, he⟩ | he)
    · refine ⟨k, by omega, ?_⟩
      rw [alloc_done_slot s b line call msg hc, if_neg (by omega)]; exact he
    · refine ⟨s.block_count, by omega, ?_⟩
      rw [alloc_done_slot s b line call msg hc, if_pos rfl]; exact he

theorem alloc_done_distinct (s : Registry) (b : mem_block_t) (line : Nat) (call : Event)
    (msg : Message) (hc : s.block_count < MAXIMAL_BLOCKS) (hd : distinct_ptrs s)
    (hu : untracked s b.ptr) : distinct_ptrs (alloc_done s b line call msg) := by
  have hn : (alloc_done s b line call msg).block_count = s.block_count + 1 := rfl
  intro j k hj hk he
  rw [alloc_done_slot s b line call msg hc, alloc_done_slot s b line call msg hc] at he
  by_cases h1 : j = s.block_count <;> by_cases h2 : k = s.block_count
  · omega
  · rw [if_pos h1, if_neg h2] at he
    exact absurd he.symm (hu k (by omega))
  · rw [if_neg h1, if_pos h2] at he
    exact absurd he (hu j (by omega))
  · rw [if_neg h1, if_neg h2] at he
    exact hd j k (by omega) (by omega) he

/-- The live slots after a successful `memmgr_realloc`. -/
theorem realloc_done_live {β : Type} (f : mem_tracker_t → β) (s : Registry) (i : Nat)
    (block : mem_block_t) (size r : Nat) (hi : i < s.block_count)
    (hinv : s.block_count ≤ MAXIMAL_BLOCKS) (y : β) :
    (∃ j, j < (realloc_done s i block size r).block_count ∧
        f (slot (realloc_done s i block size r) j) = y) ↔
      (∃ k, k < s.block_count ∧ k ≠ i ∧ f (slot s k) = y) ∨
        f ⟨⟨r, size⟩, (slot s i).file, (slot s i).line⟩ = y := by
  have hn : (realloc_done s i block size r).block_count = s.block_count := rfl
  have hi2 : i < MAXIMAL_BLOCKS := by omega
  constructor
  · rintro ⟨j, hj, he⟩
    rw [realloc_done_slot s i block size r hi2] at he
    by_cases h : j = i
    · rw [if_pos h] at he; exact Or.inr he
    · rw [if_neg h] at he; exact Or.inl ⟨j, by omega, h, he⟩
  · rintro (⟨k, hk, hne, he⟩ | he)
    · refine ⟨k, by omega, ?_⟩
      rw [realloc_done_slot s i block size r hi2, if_neg hne]; exact he
    · refine ⟨i, by omega, ?_⟩
      rw [realloc_done_slot s i block size r hi2, if_pos rfl]; exact he

theorem realloc_done_distinct (s : Registry) (i : Nat) (block : mem_block_t) (size r : Nat)
    (hi : i < s.block_count) (hinv : s.block_count ≤ MAXIMAL_BLOCKS) (hd : distinct_ptrs s)
    (hr : r = (slot s i).block.ptr ∨ untracked s r) :
    distinct_ptrs (realloc_done s i block size r) := by
  have hn : (realloc_done s i block size r).block_count = s.block_count := rfl
  have hi2 : i < MAXIMAL_BLOCKS := by omega
  have key : ∀ k, k < s.block_count → k ≠ i → (slot s k).block.ptr ≠ r := by
    intro k hk hne he
    rcases hr with hr | hr
    · exact hne (hd k i hk hi (he.trans hr))
    · exact hr k hk he
  intro j k hj hk he
  rw [realloc_done_slot s i block size r hi2, realloc_done_slot s i block size r hi2] at he
  by_cases h1 : j = i <;> by_cases h2 : k = i
  · omega
  · rw [if_pos h1, if_neg h2] at he
    exact absurd he.symm (key k (by omega) h2)
  · rw [if_neg h1, if_pos h2] at he
    exact absurd he (key j (by omega) h1)
  · rw [if_neg h1, if_neg h2] at he
    exact hd j k (by omega) (by omega) he

/-- The live slots after a successful `memmgr_free` or `memmgr_free_aligned`. -/
theorem free_done_live {β : Type} (f : mem_tracker_t → β) (s : Registry) (i ptr : Nat)
    (msg : Message) (acc : List Access) (hi : i < s.block_count)
    (hinv : s.block_count ≤ MAXIMAL_BLOCKS) (y : β) :
    (∃ j, j < (free_done s i ptr msg acc).block_count ∧
        f (slot (free_done s i ptr msg acc) j) = y) ↔
      (∃ k, k < s.block_count ∧ k ≠ i ∧ f (slot s k) = y) := by
  have hn : (free_done s i ptr msg acc).block_count = s.block_count - 1 := rfl
  have hi2 : i < MAXIMAL_BLOCKS := by omega
  constructor
  · rintro ⟨j, hj, he⟩
    rw [free_done_slot s i ptr msg acc hi2] at he
    by_cases h : j = i
    · rw [if_pos h] at he; exact ⟨s.block_count - 1, by omega, by omega, he⟩
    · rw [if_neg h] at he; exact ⟨j, by omega, h, he⟩
  · rintro ⟨k, hk, hne, he⟩
    by_cases hlast : k = s.block_count - 1
    · refine ⟨i, by omega, ?_⟩
      rw [free_done_slot s i ptr msg acc hi2, if_pos rfl, ← hlast]; exact he
    · refine ⟨k, by omega, ?_⟩
      rw [free_done_slot s i ptr msg acc hi2, if_neg hne]; exact he

theorem free_done_distinct (s : Registry) (i ptr : Nat) (msg : Message) (acc : List Access)
    (hi : i < s.block_count) (hinv : s.block_count ≤ MAXIMAL_BLOCKS) (hd : distinct_ptrs s) :
    distinct_ptrs (free_done s i ptr msg acc) := by
  have hn : (free_done s i ptr msg acc).block_count = s.block_count - 1 := rfl
  have hi2 : i < MAXIMAL_BLOCKS := by omega
  intro j k hj hk he
  rw [free_done_slot s i ptr msg acc hi2, free_done_slot s i ptr msg acc hi2] at he
  by_cases h1 : j = i <;> by_cases h2 : k = i
  · omega
  · rw [if_pos h1, if_neg h2] at he
    have := hd _ _ (by omega) (by omega) he
    omega
  · rw [if_neg h1, if_pos h2] at he
    have := hd _ _ (by omega) (by omega) he
    omega
  · rw [if_neg h1, if_neg h2] at he
    exact hd j k (by omega) (by omega) he

theorem Outcome.block_returned {o : Outcome mem_block_t} {s1 : Registry}
    {result : Option mem_block_t} (h : o.block = Outcome.returned s1 result) :
    ∃ b, o = Outcome.returned s1 b ∧ result = some b := by
  cases o with
  | returned s b =>
    simp only [Outcome.block, Outcome.returned.injEq] at h
    exact ⟨b, by rw [h.1], h.2.symm⟩
  | terminated s => simp [Outcome.block] at h

theorem Outcome.void_returned {o : Outcome Unit} {s1 : Registry}
    {result : Option mem_block_t} (h : o.void = Outcome.returned s1 result) :
    o = Outcome.returned s1 () ∧ result = none := by
  cases o with
  | returned s b =>
    simp only [Outcome.void, Outcome.returned.injEq] at h
    exact ⟨by rw [h.1], h.2.symm⟩
  | terminated s => simp [Outcome.void] at h

theorem quiet_returned {α : Type} {s s1 : Registry} {o : Outcome α} {reads : List Nat}
    {v w : α} (hq : quiet s o reads v) (h : o = Outcome.returned s1 w) :
    unchanged s s1 ∧ w = v := by
  subst h
  obtain ⟨hu, _, hv⟩ := hq
  refine ⟨hu, ?_⟩
  rcases hv with hv | hv
  · simp [Outcome.value] at hv
  · simpa [Outcome.value] using hv

theorem unchanged_slot {s s1 : Registry} (h : unchanged s s1) (j : Nat) :
    slot s1 j = slot s j := by
  unfold slot; rw [h.1]

theorem memmgr_init_block_count (s0 : Registry) (handler : Option mem_error_handler_t)
    (log_path : Option String) (fopen_result : Option Nat) :
    (memmgr_init s0 handler log_path fopen_result).block_count = 0 := by
  unfold memmgr_init
  cases log_path <;> cases fopen_result <;> rfl

theorem tracks_unchanged {s s1 : Registry} {held : List Nat} (h : tracks s held)
    (hu : unchanged s s1) : tracks s1 held := by
  obtain ⟨h1, h2, h3⟩ := h
  have hn : s1.block_count = s.block_count := hu.2.1
  refine ⟨by omega, ?_, ?_⟩
  · intro i j hi hj he
    rw [unchanged_slot hu, unchanged_slot hu] at he
    exact h2 i j (by omega) (by omega) he
  · intro p
    rw [← h3 p]
    unfold tracked
    simp only [unchanged_slot hu, hn]

theorem tracks_alloc_done {s : Registry} {held : List Nat} (h : tracks s held)
    (b : mem_block_t) (line : Nat) (call : Event) (msg : Message)
    (hc : s.block_count < MAXIMAL_BLOCKS) (hu : untracked s b.ptr) :
    tracks (alloc_done s b line call msg) (b.ptr :: held) := by
  obtain ⟨_, h2, h3⟩ := h
  refine ⟨hc, alloc_done_distinct s b line call msg hc h2 hu, ?_⟩
  intro p
  have := alloc_done_live (fun t => t.block.ptr) s b line call msg hc p
  unfold tracked
  rw [this, List.mem_cons]
  have h3p := h3 p
  unfold tracked at h3p
  rw [h3p]
  constructor
  · rintro (h | h)
    · exact Or.inr h
    · exact Or.inl h.symm
  · rintro (h | h)
    · exact Or.inr h.symm
    · exact Or.inl h

theorem tracks_realloc_done {s : Registry} {held : List Nat} (h : tracks s held)
    (i : Nat) (block : mem_block_t) (size r : Nat)
    (hf : find_block s block.ptr = some i) (hr : r = block.ptr ∨ untracked s r) :
    tracks (realloc_done s i block size r) (r :: held.filter fun p => p ≠ block.ptr) := by
  obtain ⟨h1, h2, h3⟩ := h
  obtain ⟨hi, hptr, _⟩ := (find_block_some_iff s block.ptr i).mp hf
  refine ⟨h1, realloc_done_distinct s i block size r hi h1 h2 (by rw [hptr]; exact hr), ?_⟩
  intro p
  have := realloc_done_live (fun t => t.block.ptr) s i block size r hi h1 p
  unfold tracked
  rw [this, List.mem_cons, List.mem_filter, ← h3 p]
  simp only [decide_eq_true_eq]
  constructor
  · rintro (⟨k, hk, hne, he⟩ | he)
    · refine Or.inr ⟨⟨k, hk, he⟩, ?_⟩
      intro hp
      exact hne (h2 k i hk hi (by rw [he, hp, hptr]))
    · exact Or.inl he.symm
  · rintro (he | ⟨⟨k, hk, he⟩, hne⟩)
    · exact Or.inr he.symm
    · refine Or.inl ⟨k, hk, ?_, he⟩
      intro hki
      subst hki
      exact hne (he.symm.trans hptr)

theorem tracks_free_done {s : Registry} {held : List Nat} (h : tracks s held)
    (i : Nat) (block : mem_block_t) (ptr : Nat) (msg : Message) (acc : List Access)
    (hf : find_block s block.ptr = some i) :
    tracks (free_done s i ptr msg acc) (held.filter fun p => p ≠ block.ptr) := by
  obtain ⟨h1, h2, h3⟩ := h
  obtain ⟨hi, hptr, _⟩ := (find_block_some_iff s block.ptr i).mp hf
  refine ⟨?_, free_done_distinct s i ptr msg acc hi h1 h2, ?_⟩
  · show s.block_count - 1 ≤ MAXIMAL_BLOCKS
    omega
  intro p
  have := free_done_live (fun t => t.block.ptr) s i ptr msg acc hi h1 p
  unfold tracked
  rw [this, List.mem_filter, ← h3 p]
  simp only [decide_eq_true_eq]
  constructor
  · rintro ⟨k, hk, hne, he⟩
    refine ⟨⟨k, hk, he⟩, ?_⟩
    intro hp
    exact hne (h2 k i hk hi (by rw [he, hp, hptr]))
  · rintro ⟨⟨k, hk, he⟩, hne⟩
    refine ⟨k, hk, ?_, he⟩
    intro hki
    subst hki
    exact hne (he.symm.trans hptr)

theorem tracks_free_missing {s s1 : Registry} {held : List Nat} (h : tracks s held)
    (block : mem_block_t) (hf : find_block s block.ptr = none) (hu : unchanged s s1) :
    tracks s1 (held.filter fun p => p ≠ block.ptr) := by
  have hnone := (find_block_none_iff s block.ptr).mp hf
  have e : (held.filter fun p => p ≠ block.ptr) = held := by
    rw [List.filter_eq_self]
    intro p hp
    simp only [decide_eq_true_eq]
    intro hpe
    obtain ⟨k, hk, he⟩ := (h.2.2 p).mpr hp
    exact hnone k hk (he.trans hpe)
  rw [e]
  exact tracks_unchanged h hu

theorem reachable_tracks {s : Registry} {held : List Nat} (h : Reachable s held) :
    tracks s held := by
  induction h with
  | init s0 handler log_path fopen_result =>
    have hn := memmgr_init_block_count s0 handler log_path fopen_result
    refine ⟨by omega, ?_, ?_⟩
    · intro i j hi; omega
    · intro p
      constructor
      · rintro ⟨i, hi, _⟩; omega
      · intro hp; cases hp
  | call s held op s1 result _ hfresh hstep ih =>
    cases op with
    | alloc size r =>
      obtain ⟨b, ho, hres⟩ := Outcome.block_returned hstep
      subst hres
      rcases memmgr_alloc_cases s size r with ⟨hc, hr, h⟩ | hq
      · rw [h] at ho
        simp only [Outcome.returned.injEq] at ho
        obtain ⟨hs, hb⟩ := ho
        subst hs hb
        simp only [outstanding_after, hr, if_false]
        exact tracks_alloc_done ih _ _ _ _ hc (hfresh hr)
      · obtain ⟨hu, hb⟩ := quiet_returned hq ho
        subst hb
        simp only [outstanding_after, null_block, if_true]
        exact tracks_unchanged ih hu
    | alloc_aligned size alignment status r =>
      obtain ⟨b, ho, hres⟩ := Outcome.block_returned hstep
      subst hres
      rcases memmgr_alloc_aligned_cases s size alignment status r with ⟨hc, hr, h⟩ | hq
      · rw [h] at ho
        simp only [Outcome.returned.injEq] at ho
        obtain ⟨hs, hb⟩ := ho
        subst hs hb
        simp only [outstanding_after, hr, if_false]
        exact tracks_alloc_done ih _ _ _ _ hc (hfresh hr)
      · obtain ⟨hu, hb⟩ := quiet_returned hq ho
        subst hb
        simp only [outstanding_after, null_block, if_true]
        exact tracks_unchanged ih hu
    | calloc num size r =>
      obtain ⟨b, ho, hres⟩ := Outcome.block_returned hstep
      subst hres
      rcases memmgr_calloc_cases s num size r with ⟨hc, hr, h⟩ | hq
      · rw [h] at ho
        simp only [Outcome.returned.injEq] at ho
        obtain ⟨hs, hb⟩ := ho
        subst hs hb
        simp only [outstanding_after, hr, if_false]
        exact tracks_alloc_done ih _ _ _ _ hc (hfresh hr)
      · obtain ⟨hu, hb⟩ := quiet_returned hq ho
        subst hb
        simp only [outstanding_after, null_block, if_true]
        exact tracks_unchanged ih hu
    | realloc block size r =>
      obtain ⟨b, ho, hres⟩ := Outcome.block_returned hstep
      subst hres
      rcases memmgr_realloc_cases s block size r with ⟨index, hf, hr, h⟩ | ⟨n, _, hq⟩
      · rw [h] at ho
        simp only [Outcome.returned.injEq] at ho
        obtain ⟨hs, hb⟩ := ho
        subst hs hb
        simp only [outstanding_after, hr, if_false]
        exact tracks_realloc_done ih index block size r hf (hfresh hr)
      · obtain ⟨hu, hb⟩ := quiet_returned hq ho
        subst hb
        simp only [outstanding_after, null_block, if_true]
        exact tracks_unchanged ih hu
    | free block =>
      obtain ⟨ho, hres⟩ := Outcome.void_returned hstep
      subst hres
      simp only [outstanding_after]
      rcases memmgr_free_cases s block with ⟨index, hf, h⟩ | ⟨hf, hq⟩
      · rw [h] at ho
        simp only [Outcome.returned.injEq, and_true] at ho
        subst ho
        exact tracks_free_done ih index block _ _ _ hf
      · exact tracks_free_missing ih block hf (quiet_returned hq ho).1
    | free_aligned block =>
      obtain ⟨ho, hres⟩ := Outcome.void_returned hstep
      subst hres
      simp only [outstanding_after]
      rcases memmgr_free_aligned_cases s block with ⟨index, hf, h⟩ | ⟨hf, hq⟩
      · rw [h] at ho
        simp only [Outcome.returned.injEq, and_true] at ho
        subst ho
        exact tracks_free_done ih index block _ _ _ hf
      · exact tracks_free_missing ih block hf (quiet_returned hq ho).1
    | cleanup =>
      replace hstep : (memmgr_cleanup s).void = Outcome.returned s1 result := hstep
      obtain ⟨ho, hres⟩ := Outcome.void_returned hstep
      subst hres
      obtain ⟨s2, h0, _, h2, _⟩ := memmgr_cleanup_spec s
      rw [h0] at ho
      simp only [Outcome.returned.injEq, and_true] at ho
      subst ho
      simp only [outstanding_after]
      refine ⟨by omega, ?_, ?_⟩
      · intro i j hi; omega
      · intro p
        constructor
        · rintro ⟨i, hi, _⟩; omega
        · intro hp; cases hp
    | debug =>
      replace hstep : (memmgr_debug s).void = Outcome.returned s1 result := hstep
      obtain ⟨ho, hres⟩ := Outcome.void_returned hstep
      subst hres
      obtain ⟨s2, h0, h1, h2, h3, h4, _⟩ := memmgr_debug_spec s
      rw [h0] at ho
      simp only [Outcome.returned.injEq, and_true] at ho
      subst ho
      exact tracks_unchanged ih ⟨h1, h2, h3, h4⟩
    | stats =>
      replace hstep : (memmgr_stats s).void = Outcome.returned s1 result := hstep
      obtain ⟨ho, hres⟩ := Outcome.void_returned hstep
      subst hres
      obtain ⟨s2, h0, h1, h2, h3, h4, _⟩ := memmgr_stats_spec s
      rw [h0] at ho
      simp only [Outcome.returned.injEq, and_true] at ho
      subst ho
      exact tracks_unchanged ih ⟨h1, h2, h3, h4⟩

theorem accounts_alloc_done {s : Registry} {returned freed : List mem_block_t}
    (h : accounts s returned freed) (b : mem_block_t) (line : Nat) (call : Event)
    (msg : Message) (hc : s.block_count < MAXIMAL_BLOCKS)
    (hnew : ∀ a, a ∈ returned → a.ptr ≠ b.ptr) :
    accounts (alloc_done s b line call msg) (b :: returned) freed := by
  obtain ⟨_, h2, h3, h4, h5, h6⟩ := h
  have hu : untracked s b.ptr := by
    intro i hi he
    have hmem := ((h3 (slot s i).block).mp ⟨i, hi, rfl⟩).1
    exact hnew _ hmem he
  have hb : b ∉ freed := fun hf => hnew b (h5 b hf) rfl
  refine ⟨hc, alloc_done_distinct s b line call msg hc h2 hu, ?_, ?_, ?_, ?_⟩
  · intro x
    rw [alloc_done_live (fun t => t.block) s b line call msg hc x, h3 x, List.mem_cons]
    constructor
    · rintro (⟨h1, h2⟩ | he)
      · exact ⟨Or.inr h1, h2⟩
      · exact ⟨Or.inl he.symm, by rw [← he]; exact hb⟩
    · rintro ⟨he | h1, h2⟩
      · exact Or.inr he.symm
      · exact Or.inl ⟨h1, h2⟩
  · exact List.nodup_cons.mpr ⟨fun hmem => hnew b hmem rfl, h4⟩
  · intro x hx
    exact List.mem_cons_of_mem _ (h5 x hx)
  · show s.block_count + 1 + freed.length = (b :: returned).length
    simp only [List.length_cons]
    omega

theorem accounts_free_done {s : Registry} {returned freed : List mem_block_t}
    (h : accounts s returned freed) (i : Nat) (block : mem_block_t) (ptr : Nat)
    (msg : Message) (acc : List Access) (hf : find_block s block.ptr = some i)
    (hret : block ∈ returned) (hnf : block ∉ freed) :
    accounts (free_done s i ptr msg acc) returned (block :: freed) := by
  obtain ⟨h1, h2, h3, h4, h5, h6⟩ := h
  obtain ⟨hi, hptr, _⟩ := (find_block_some_iff s block.ptr i).mp hf
  obtain ⟨k, hk, hkb⟩ := (h3 block).mpr ⟨hret, hnf⟩
  have hki : k = i := h2 k i hk hi (by rw [hkb, hptr])
  subst hki
  refine ⟨?_, free_done_distinct s k ptr msg acc hi h1 h2, ?_, h4, ?_, ?_⟩
  · show s.block_count - 1 ≤ MAXIMAL_BLOCKS
    omega
  · intro x
    rw [free_done_live (fun t => t.block) s k ptr msg acc hi h1 x, List.mem_cons]
    constructor
    · rintro ⟨j, hj, hne, he⟩
      have hx := (h3 x).mp ⟨j, hj, he⟩
      refine ⟨hx.1, ?_⟩
      rintro (hxb | hxf)
      · exact hne (h2 j k hj hi (by rw [he, hxb, hkb]))
      · exact hx.2 hxf
    · rintro ⟨hx1, hx2⟩
      obtain ⟨j, hj, he⟩ := (h3 x).mpr ⟨hx1, fun hxf => hx2 (Or.inr hxf)⟩
      refine ⟨j, hj, ?_, he⟩
      intro hjk
      subst hjk
      exact hx2 (Or.inl (he.symm.trans hkb))
  · intro x hx
    rcases List.mem_cons.mp hx with hx | hx
    · rw [hx]; exact hret
    · exact h5 x hx
  · show s.block_count - 1 + (block :: freed).length = returned.length
    simp only [List.length_cons]
    omega

theorem alloc_returned {s s1 : Registry} {op : Op} {b : mem_block_t} (hop : op.allocates)
    (hstep : step s op = Outcome.returned s1 (some b)) (hb : b.ptr ≠ 0) :
    s.block_count < MAXIMAL_BLOCKS ∧
      ∃ line call msg, s1 = alloc_done s b line call msg := by
  cases op with
  | alloc size r =>
    obtain ⟨b2, ho, hres⟩ := Outcome.block_returned hstep
    cases hres
    rcases memmgr_alloc_cases s size r with ⟨hc, _, h⟩ | hq
    · rw [h] at ho
      simp only [Outcome.returned.injEq] at ho
      obtain ⟨hs, hb2⟩ := ho
      subst hs hb2
      exact ⟨hc, _, _, _, rfl⟩
    · have := (quiet_returned hq ho).2
      subst this
      exact absurd rfl hb
  | alloc_aligned size alignment status r =>
    obtain ⟨b2, ho, hres⟩ := Outcome.block_returned hstep
    cases hres
    rcases memmgr_alloc_aligned_cases s size alignment status r with ⟨hc, _, h⟩ | hq
    · rw [h] at ho
      simp only [Outcome.returned.injEq] at ho
      obtain ⟨hs, hb2⟩ := ho
      subst hs hb2
      exact ⟨hc, _, _, _, rfl⟩
    · have := (quiet_returned hq ho).2
      subst this
      exact absurd rfl hb
  | calloc num size r =>
    obtain ⟨b2, ho, hres⟩ := Outcome.block_returned hstep
    cases hres
    rcases memmgr_calloc_cases s num size r with ⟨hc, _, h⟩ | hq
    · rw [h] at ho
      simp only [Outcome.returned.injEq] at ho
      obtain ⟨hs, hb2⟩ := ho
      subst hs hb2
      exact ⟨hc, _, _, _, rfl⟩
    · have := (quiet_returned hq ho).2
      subst this
      exact absurd rfl hb
  | realloc _ _ _ => exact absurd hop (by simp [Op.allocates])
  | free _ => exact absurd hop (by simp [Op.allocates])
  | free_aligned _ => exact absurd hop (by simp [Op.allocates])
  | cleanup => exact absurd hop (by simp [Op.allocates])
  | debug => exact absurd hop (by simp [Op.allocates])
  | stats => exact absurd hop (by simp [Op.allocates])

theorem find_block_of_live {s : Registry} {b : mem_block_t} {i : Nat}
    (hi : i < s.block_count) (hb : (slot s i).block = b) :
    ∃ k, find_block s b.ptr = some k := by
  cases hf : find_block s b.ptr with
  | none =>
    exact absurd (by rw [hb]) ((find_block_none_iff s b.ptr).mp hf i hi)
  | some k => exact ⟨k, rfl⟩

theorem run_accounts {s : Registry} {returned freed : List mem_block_t}
    (h : AllocFreeRun s returned freed) : accounts s returned freed := by
  induction h with
  | init s0 handler log_path fopen_result =>
    have hn := memmgr_init_block_count s0 handler log_path fopen_result
    refine ⟨by omega, ?_, ?_, ?_, ?_, ?_⟩
    · intro i j hi; omega
    · intro b
      constructor
      · rintro ⟨i, hi, _⟩; omega
      · rintro ⟨hb, _⟩; cases hb
    · exact List.nodup_nil
    · intro a ha; cases ha
    · simp [hn]
  | alloc s returned freed op s1 b _ hop hstep hb hnew ih =>
    obtain ⟨hc, line, call, msg, hs⟩ := alloc_returned hop hstep hb
    subst hs
    exact accounts_alloc_done ih b line call msg hc hnew
  | free s returned freed h s1 _ hret hnf hstep ih =>
    obtain ⟨ho, _⟩ := Outcome.void_returned hstep
    obtain ⟨i, hi, hib⟩ := (ih.2.2.1 h).mpr ⟨hret, hnf⟩
    obtain ⟨k, hk⟩ := find_block_of_live hi hib
    rw [memmgr_free_found s h k hk] at ho
    simp only [Outcome.returned.injEq, and_true] at ho
    subst ho
    exact accounts_free_done ih k h _ _ _ hk hret hnf
  | free_aligned s returned freed h s1 _ hret hnf hstep ih =>
    obtain ⟨ho, _⟩ := Outcome.void_returned hstep
    obtain ⟨i, hi, hib⟩ := (ih.2.2.1 h).mpr ⟨hret, hnf⟩
    obtain ⟨k, hk⟩ := find_block_of_live hi hib
    rw [memmgr_free_aligned_found s h k hk] at ho
    simp only [Outcome.returned.injEq, and_true] at ho
    subst ho
    exact accounts_free_done ih k h _ _ _ hk hret hnf

theorem live_blocks_nodup {s : Registry} (h : distinct_ptrs s) : (live_blocks s).Nodup := by
  unfold live_blocks
  apply List.Nodup.map_on _ (List.nodup_range _)
  intro i hi j hj he
  exact h i j (List.mem_range.mp hi) (List.mem_range.mp hj) (by rw [he])

theorem mem_live_blocks (s : Registry) (b : mem_block_t) :
    b ∈ live_blocks s ↔ ∃ i, i < s.block_count ∧ (slot s i).block = b := by
  unfold live_blocks
  rw [List.mem_map]
  constructor
  · rintro ⟨i, hi, he⟩; exact ⟨i, List.mem_range.mp hi, he⟩
  · rintro ⟨i, hi, he⟩; exact ⟨i, List.mem_range.mpr hi, he⟩

theorem dumped_debug (s s1 : Registry)
    (h : s1.trace = s.trace ++ Event.debug_header :: (List.range s.block_count).map
      (fun j => Event.debug_block (j + 1) (slot s j).block.ptr (slot s j).block.size)) :
    dumped (new_trace s s1) = live_blocks s := by
  rw [new_trace_append s s1 _ h]
  unfold dumped live_blocks
  rw [List.filterMap_cons_none (by rfl), List.filterMap_map, ← List.filterMap_eq_map]
  rfl

theorem memmgr_cleanup_empty (s : Registry) (h0 : s.block_count = 0)
    (hl : s.log_file = none) :
    memmgr_cleanup s = Outcome.returned (failed s [] []) () := by
  cases s with
  | mk t n a f h lf m tr acc =>
    simp only at h0 hl
    subst h0 hl
    simp [memmgr_cleanup, lock_mutex, unlock_mutex, cleanup_loop, failed]

theorem memmgr_init_spec (s : Registry) (handler : Option mem_error_handler_t)
    (log_path : Option String) (fopen_result : Option Nat) :
    (memmgr_init s handler log_path fopen_result).allocated_blocks = Table.zero ∧
    (memmgr_init s handler log_path fopen_result).block_count = 0 ∧
    (memmgr_init s handler log_path fopen_result).allocated_bytes = 0 ∧
    (memmgr_init s handler log_path fopen_result).total_freed_bytes = 0 ∧
    (memmgr_init s handler log_path fopen_result).global_error_handler =
      some (handler.getD mem_error_handler_t.default_global_error_handler) ∧
    (memmgr_init s handler log_path fopen_result).mem_mutex = s.mem_mutex ∧
    (memmgr_init s handler log_path fopen_result).accesses = s.accesses ∧
    (∃ l, (memmgr_init s handler log_path fopen_result).trace = s.trace ++ l ∧
      ∀ e ∈ l, ∀ msg, e ≠ Event.error msg) := by
  unfold memmgr_init
  cases handler <;> cases log_path <;> cases fopen_result <;>
    (refine ⟨rfl, rfl, rfl, rfl, rfl, rfl, rfl, ?_⟩
     simp only [emit, List.append_assoc]
     refine ⟨_, rfl, ?_⟩
     intro e he msg hc
     subst hc
     simp at he)

theorem usage_percent_half : usage_percent 1024 2048 = Usage.value 50 := by
  unfold usage_percent
  rw [if_neg (by decide)]
  congr 1
  norm_num

theorem sum_range_congr (f g : Nat → Nat) : ∀ n, (∀ j, j < n → g j = f j) →
    ((List.range n).map g).sum = ((List.range n).map f).sum := by
  intro n
  induction n with
  | zero => intro _; rfl
  | succ n ih =>
    intro h
    rw [List.sum_range_succ, List.sum_range_succ, ih (fun j hj => h j (by omega)),
      h n (by omega)]

theorem sum_range_update (f g : Nat → Nat) (i : Nat) : ∀ n, i < n →
    (∀ j, j < n → j ≠ i → g j = f j) →
    ((List.range n).map g).sum + f i = ((List.range n).map f).sum + g i := by
  intro n
  induction n with
  | zero => intro h; omega
  | succ n ih =>
    intro hi h
    rw [List.sum_range_succ, List.sum_range_succ]
    by_cases hin : i = n
    · subst hin
      rw [sum_range_congr f g i (fun j hj => h j (by omega) (by omega))]
      omega
    · have := ih (by omega) (fun j hj hne => h j (by omega) hne)
      rw [h n (by omega) (fun hc => hin hc.symm)]
      omega

theorem live_sizes_alloc_done (s : Registry) (b : mem_block_t) (line : Nat) (call : Event)
    (msg : Message) (hc : s.block_count < MAXIMAL_BLOCKS) :
    (live_sizes (alloc_done s b line call msg)).sum = (live_sizes s).sum + b.size := by
  unfold live_sizes
  have hn : (alloc_done s b line call msg).block_count = s.block_count + 1 := rfl
  rw [hn, List.sum_range_succ, alloc_done_slot _ _ _ _ _ hc, if_pos rfl]
  congr 1
  apply sum_range_congr
  intro j hj
  rw [alloc_done_slot _ _ _ _ _ hc, if_neg (by omega)]

theorem live_sizes_realloc_done (s : Registry) (i : Nat) (block : mem_block_t) (size r : Nat)
    (hi : i < s.block_count) (hinv : s.block_count ≤ MAXIMAL_BLOCKS) :
    (live_sizes (realloc_done s i block size r)).sum + (slot s i).block.size =
      (live_sizes s).sum + size := by
  unfold live_sizes
  have hn : (realloc_done s i block size r).block_count = s.block_count := rfl
  have hi2 : i < MAXIMAL_BLOCKS := by omega
  rw [hn]
  have := sum_range_update (fun j => (slot s j).block.size)
    (fun j => (slot (realloc_done s i block size r) j).block.size) i s.block_count hi
    (fun j _ hne => by simp only; rw [realloc_done_slot _ _ _ _ _ hi2, if_neg hne])
  simp only at this
  rw [this, realloc_done_slot _ _ _ _ _ hi2, if_pos rfl]

theorem live_sizes_free_done (s : Registry) (i ptr : Nat) (msg : Message) (acc : List Access)
    (hi : i < s.block_count) (hinv : s.block_count ≤ MAXIMAL_BLOCKS) :
    (live_sizes (free_done s i ptr msg acc)).sum + (slot s i).block.size =
      (live_sizes s).sum := by
  unfold live_sizes
  have hn : (free_done s i ptr msg acc).block_count = s.block_count - 1 := rfl
  have hi2 : i < MAXIMAL_BLOCKS := by omega
  rw [hn]
  obtain ⟨m, hm⟩ : ∃ m, s.block_count = m + 1 := ⟨s.block_count - 1, by omega⟩
  rw [hm, Nat.add_sub_cancel, List.sum_range_succ]
  by_cases him : i = m
  · subst him
    rw [sum_range_congr (fun j => (slot s j).block.size)
      (fun j => (slot (free_done s i ptr msg acc) j).block.size) i
      (fun j hj => by simp only; rw [free_done_slot _ _ _ _ _ hi2, if_neg (by omega)])]
  · have := sum_range_update (fun j => (slot s j).block.size)
      (fun j => (slot (free_done s i ptr msg acc) j).block.size) i m (by omega)
      (fun j _ hne => by simp only; rw [free_done_slot _ _ _ _ _ hi2, if_neg hne])
    simp only at this
    rw [this, free_done_slot _ _ _ _ _ hi2, if_pos rfl, hm, Nat.add_sub_cancel]

theorem conserved_unchanged {s s1 : Registry} (h : conserved s) (hu : unchanged s s1) :
    conserved s1 := by
  obtain ⟨h1, h2, h3, h4⟩ := h
  obtain ⟨u1, u2, u3, u4⟩ := hu
  have hl : live_sizes s1 = live_sizes s := by
    unfold live_sizes slot
    rw [u1, u2]
  exact ⟨by rw [u2]; exact h1, by rw [u3]; exact h2, by rw [u4]; exact h3,
    by rw [u3, u4, hl]; exact h4⟩

theorem conserved_alloc_done {s : Registry} (h : conserved s) (b : mem_block_t) (line : Nat)
    (call : Event) (msg : Message) (hc : s.block_count < MAXIMAL_BLOCKS) :
    conserved (alloc_done s b line call msg) := by
  obtain ⟨_, _, h3, h4⟩ := h
  refine ⟨hc, Nat.mod_lt _ (by decide), h3, ?_⟩
  rw [live_sizes_alloc_done _ _ _ _ _ hc]
  show size_add s.allocated_bytes b.size = _
  unfold size_add
  rw [h4, Nat.mod_add_mod, Nat.add_assoc]
  rfl

theorem conserved_realloc_done {s : Registry} (h : conserved s) (i : Nat)
    (block : mem_block_t) (size r : Nat) (hi : i < s.block_count)
    (hsize : block.size = (slot s i).block.size) :
    conserved (realloc_done s i block size r) := by
  obtain ⟨h1, _, h3, h4⟩ := h
  refine ⟨h1, Nat.mod_lt _ (by decide), h3, ?_⟩
  have hsum := live_sizes_realloc_done s i block size r hi h1
  rw [← hsize] at hsum
  show size_add s.allocated_bytes (size_sub size block.size) =
    (s.total_freed_bytes + (live_sizes (realloc_done s i block size r)).sum) % SIZE_MOD
  rw [h4]
  generalize (live_sizes (realloc_done s i block size r)).sum = total1 at hsum ⊢
  generalize (live_sizes s).sum = total0 at hsum ⊢
  generalize s.total_freed_bytes = freed
  generalize block.size = old at hsum ⊢
  unfold size_add size_sub SIZE_MOD
  norm_num
  omega

theorem conserved_free_done {s : Registry} (h : conserved s) (i ptr : Nat) (msg : Message)
    (acc : List Access) (hi : i < s.block_count) :
    conserved (free_done s i ptr msg acc) := by
  obtain ⟨h1, h2, _, h4⟩ := h
  refine ⟨?_, h2, Nat.mod_lt _ (by decide), ?_⟩
  · show s.block_count - 1 ≤ MAXIMAL_BLOCKS
    omega
  have hsum := live_sizes_free_done s i ptr msg acc hi h1
  show s.allocated_bytes =
    (size_add s.total_freed_bytes (slot s i).block.size +
      (live_sizes (free_done s i ptr msg acc)).sum) % SIZE_MOD
  unfold size_add
  rw [h4, Nat.mod_add_mod, ← hsum]
  congr 1
  omega

theorem honest_run_conserved {s : Registry} (h : HonestRun s) : conserved s := by
  induction h with
  | init s0 handler log_path fopen_result =>
    obtain ⟨_, i2, i3, i4, _⟩ := memmgr_init_spec s0 handler log_path fopen_result
    refine ⟨by omega, by rw [i3]; decide, by rw [i4]; decide, ?_⟩
    simp [live_sizes, i2, i3, i4]
  | call s op s1 result _ hhonest hstep ih =>
    cases op with
    | alloc size r =>
      obtain ⟨b, ho, _⟩ := Outcome.block_returned hstep
      rcases memmgr_alloc_cases s size r with ⟨hc, _, h⟩ | hq
      · rw [h] at ho
        simp only [Outcome.returned.injEq] at ho
        rw [← ho.1]
        exact conserved_alloc_done ih _ _ _ _ hc
      · exact conserved_unchanged ih (quiet_returned hq ho).1
    | alloc_aligned size alignment status r =>
      obtain ⟨b, ho, _⟩ := Outcome.block_returned hstep
      rcases memmgr_alloc_aligned_cases s size alignment status r with ⟨hc, _, h⟩ | hq
      · rw [h] at ho
        simp only [Outcome.returned.injEq] at ho
        rw [← ho.1]
        exact conserved_alloc_done ih _ _ _ _ hc
      · exact conserved_unchanged ih (quiet_returned hq ho).1
    | calloc num size r =>
      obtain ⟨b, ho, _⟩ := Outcome.block_returned hstep
      rcases memmgr_calloc_cases s num size r with ⟨hc, _, h⟩ | hq
      · rw [h] at ho
        simp only [Outcome.returned.injEq] at ho
        rw [← ho.1]
        exact conserved_alloc_done ih _ _ _ _ hc
      · exact conserved_unchanged ih (quiet_returned hq ho).1
    | realloc block size r =>
      obtain ⟨b, ho, _⟩ := Outcome.block_returned hstep
      rcases memmgr_realloc_cases s block size r with ⟨index, hf, _, h⟩ | ⟨n, _, hq⟩
      · rw [h] at ho
        simp only [Outcome.returned.injEq] at ho
        rw [← ho.1]
        have hi := ((find_block_some_iff s block.ptr index).mp hf).1
        exact conserved_realloc_done ih index block size r hi (hhonest index hf)
      · exact conserved_unchanged ih (quiet_returned hq ho).1
    | free block =>
      obtain ⟨ho, _⟩ := Outcome.void_returned hstep
      rcases memmgr_free_cases s block with ⟨index, hf, h⟩ | ⟨_, hq⟩
      · rw [h] at ho
        simp only [Outcome.returned.injEq, and_true] at ho
        rw [← ho]
        have hi := ((find_block_some_iff s block.ptr index).mp hf).1
        exact conserved_free_done ih index _ _ _ hi
      · exact conserved_unchanged ih (quiet_returned hq ho).1
    | free_aligned block =>
      obtain ⟨ho, _⟩ := Outcome.void_returned hstep
      rcases memmgr_free_aligned_cases s block with ⟨index, hf, h⟩ | ⟨_, hq⟩
      · rw [h] at ho
        simp only [Outcome.returned.injEq, and_true] at ho
        rw [← ho]
        have hi := ((find_block_some_iff s block.ptr index).mp hf).1
        exact conserved_free_done ih index _ _ _ hi
      · exact conserved_unchanged ih (quiet_returned hq ho).1
    | cleanup =>
      replace hstep : (memmgr_cleanup s).void = Outcome.returned s1 result := hstep
      obtain ⟨ho, _⟩ := Outcome.void_returned hstep
      obtain ⟨s2, h0, _, h2, h3, _, _, _, _, _, h9, _⟩ := memmgr_cleanup_spec s
      rw [h0] at ho
      simp only [Outcome.returned.injEq, and_true] at ho
      subst ho
      obtain ⟨_, a2, a3, a4⟩ := ih
      have hf := h9 a3
      refine ⟨by omega, by rw [h3]; exact a2, by rw [hf]; exact Nat.mod_lt _ (by decide), ?_⟩
      have hl : (live_sizes s2).sum = 0 := by simp [live_sizes, h2]
      rw [hl, h3, a4, hf, Nat.add_zero, Nat.mod_mod]
    | debug =>
      replace hstep : (memmgr_debug s).void = Outcome.returned s1 result := hstep
      obtain ⟨ho, _⟩ := Outcome.void_returned hstep
      obtain ⟨s2, h0, h1, h2, h3, h4, _⟩ := memmgr_debug_spec s
      rw [h0] at ho
      simp only [Outcome.returned.injEq, and_true] at ho
      subst ho
      exact conserved_unchanged ih ⟨h1, h2, h3, h4⟩
    | stats =>
      replace hstep : (memmgr_stats s).void = Outcome.returned s1 result := hstep
      obtain ⟨ho, _⟩ := Outcome.void_returned hstep
      obtain ⟨s2, h0, h1, h2, h3, h4, _⟩ := memmgr_stats_spec s
      rw [h0] at ho
      simp only [Outcome.returned.injEq, and_true] at ho
      subst ho
      exact conserved_unchanged ih ⟨h1, h2, h3, h4⟩

/-! ## The claims -/

/-- C1, as amended: when fewer than `MAXIMAL_BLOCKS` records are live, `malloc`
returns a non-null pointer `r` and no live record already holds `r`,
`memmgr_alloc(size)` returns the handle `(r, size)`, `memmgr_free` of that
handle returns, and after the pair `allocated_bytes` is its old value plus
`size` and `total_freed_bytes` is its old value plus `size`, both modulo 2^64. -/
theorem alloc_then_free_counters (s : Registry) (size r : Nat)
    (hcount : s.block_count < MAXIMAL_BLOCKS) (hr : r ≠ 0) (hfresh : untracked s r) :
    ∃ s1 s2, memmgr_alloc s size r = Outcome.returned s1 ⟨r, size⟩ ∧
      memmgr_free s1 ⟨r, size⟩ = Outcome.returned s2 () ∧
      s2.allocated_bytes = size_add s.allocated_bytes size ∧
      s2.total_freed_bytes = size_add s.total_freed_bytes size := by
  have hfind : find_block (alloc_done s ⟨r, size⟩ 94 (Event.malloc size r) Message.allocated) r
      = some s.block_count := by
    rw [find_block_some_iff]
    refine ⟨by simp [alloc_done], ?_, ?_⟩
    · simp [alloc_done, slot, Table.get_set_self _ _ _ hcount]
    · intro j hj
      have hne : s.block_count ≠ j := by omega
      simpa [alloc_done, slot, Table.get_set_ne _ _ _ _ hne] using hfresh j hj
  refine ⟨_, _, memmgr_alloc_ok s size r hcount hr, memmgr_free_found _ _ _ hfind, ?_, ?_⟩
  · simp [free_done, alloc_done]
  · simp [free_done, alloc_done, slot, Table.get_set_self _ _ _ hcount]

theorem alloc_then_free_counters_witness :
    ∃ s1 s2, memmgr_alloc fresh 1024 7 = Outcome.returned s1 ⟨7, 1024⟩ ∧
      memmgr_free s1 ⟨7, 1024⟩ = Outcome.returned s2 () ∧
      s2.allocated_bytes = size_add fresh.allocated_bytes 1024 ∧
      s2.total_freed_bytes = size_add fresh.total_freed_bytes 1024 :=
  alloc_then_free_counters fresh 1024 7 (by decide) (by decide)
    (fun i hi => (Nat.not_lt_zero i hi).elim)

theorem alloc_then_free_counterexample :
    (fresh.block_count < MAXIMAL_BLOCKS ∧
      (memmgr_alloc fresh 1024 7).value = some ⟨7, 1024⟩ ∧
      (memmgr_free (memmgr_alloc fresh 1024 7).state ⟨7, 1024⟩).value = some () ∧
      fresh.allocated_bytes = 0 ∧
      (memmgr_free (memmgr_alloc fresh 1024 7).state ⟨7, 1024⟩).state.allocated_bytes = 1024) ∧
    (stale_block.block_count < MAXIMAL_BLOCKS ∧
      (memmgr_alloc stale_block 9 7).value = some ⟨7, 9⟩ ∧
      (memmgr_free (memmgr_alloc stale_block 9 7).state ⟨7, 9⟩).value = some () ∧
      stale_block.total_freed_bytes = 0 ∧
      (memmgr_free (memmgr_alloc stale_block 9 7).state ⟨7, 9⟩).state.total_freed_bytes = 5) := by
  decide

/-- C2, at the failing input: the only live record is `(7, 512)` and
`allocated_bytes` is 512; `memmgr_realloc` of the handle `(7, 100)` to 2048
bytes returns `(7, 2048)` and stores size 2048 in the record, but leaves
`allocated_bytes` at `512 + (2048 - 100)`, the difference taken from the size
field of the handle, not at `512 + (2048 - 512)`. -/
theorem realloc_delta_uses_handle_size :
    find_block one_block 7 = some 0 ∧
    (slot one_block 0).block = ⟨7, 512⟩ ∧
    one_block.allocated_bytes = 512 ∧
    (memmgr_realloc one_block ⟨7, 100⟩ 2048 7).value = some ⟨7, 2048⟩ ∧
    (slot (memmgr_realloc one_block ⟨7, 100⟩ 2048 7).state 0).block = ⟨7, 2048⟩ ∧
    (memmgr_realloc one_block ⟨7, 100⟩ 2048 7).state.allocated_bytes = 512 + (2048 - 100) ∧
    (memmgr_realloc one_block ⟨7, 100⟩ 2048 7).state.allocated_bytes ≠ 512 + (2048 - 512) := by
  decide

/-- C3: when the live count is `MAXIMAL_BLOCKS` and the handler returns, each of
`memmgr_alloc`, `memmgr_alloc_aligned` and `memmgr_calloc` returns the null
block, the only call it makes is the error handler with the capacity message
(no allocator call, whatever the allocator would have answered), and the table,
the live count, `allocated_bytes` and `total_freed_bytes` are unchanged. -/
theorem capacity_exceeded (s : Registry) (hfull : s.block_count = MAXIMAL_BLOCKS)
    (hh : recovering s) (size alignment num : Nat) (r status : Nat) :
    (∃ s1, memmgr_alloc s size r = Outcome.returned s1 null_block ∧
      new_trace s s1 = [Event.error Message.exceeded_limit] ∧ unchanged s s1) ∧
    (∃ s2, memmgr_alloc_aligned s size alignment status r = Outcome.returned s2 null_block ∧
      new_trace s s2 = [Event.error Message.exceeded_limit] ∧ unchanged s s2) ∧
    (∃ s3, memmgr_calloc s num size r = Outcome.returned s3 null_block ∧
      new_trace s s3 = [Event.error Message.exceeded_limit] ∧ unchanged s s3) := by
  have hle : MAXIMAL_BLOCKS ≤ s.block_count := le_of_eq hfull.symm
  refine ⟨⟨_, memmgr_alloc_full s size r hle hh, ?_, ?_⟩,
    ⟨_, memmgr_alloc_aligned_full s size alignment status r hle hh, ?_, ?_⟩,
    ⟨_, memmgr_calloc_full s num size r hle hh, ?_, ?_⟩⟩ <;>
  simp [new_trace, failed, unchanged]

theorem capacity_exceeded_witness :
    (∃ s1, memmgr_alloc (filled 1024) 8 5000 = Outcome.returned s1 null_block ∧
      new_trace (filled 1024) s1 = [Event.error Message.exceeded_limit] ∧
      unchanged (filled 1024) s1) ∧
    (∃ s2, memmgr_alloc_aligned (filled 1024) 8 64 0 5000 = Outcome.returned s2 null_block ∧
      new_trace (filled 1024) s2 = [Event.error Message.exceeded_limit] ∧
      unchanged (filled 1024) s2) ∧
    (∃ s3, memmgr_calloc (filled 1024) 4 8 5000 = Outcome.returned s3 null_block ∧
      new_trace (filled 1024) s3 = [Event.error Message.exceeded_limit] ∧
      unchanged (filled 1024) s3) :=
  capacity_exceeded (filled 1024) (filled_spec 1024 (le_refl _)).1
    (filled_spec 1024 (le_refl _)).2 8 64 4 5000 0

/-- C4: with a handler that returns, when no live record holds the pointer of
the handle, `memmgr_free` and `memmgr_free_aligned` return after calling only
the error handler, with the table, the live count and both counters unchanged;
and each of them calls the handler if and only if no live record holds the
pointer. -/
theorem free_untracked (s : Registry) (block : mem_block_t) (hh : recovering s) :
    (untracked s block.ptr →
      (∃ s1, memmgr_free s block = Outcome.returned s1 () ∧
        new_trace s s1 = [Event.error Message.free_failed] ∧ unchanged s s1) ∧
      (∃ s2, memmgr_free_aligned s block = Outcome.returned s2 () ∧
        new_trace s s2 = [Event.error Message.free_aligned_failed] ∧ unchanged s s2)) ∧
    (handler_called s (memmgr_free s block).state ↔ untracked s block.ptr) ∧
    (handler_called s (memmgr_free_aligned s block).state ↔ untracked s block.ptr) := by
  refine ⟨?_, ?_, ?_⟩
  · intro hu
    have hnone := (find_block_none_iff s block.ptr).mpr hu
    refine ⟨⟨_, memmgr_free_missing s block hnone hh, ?_, ?_⟩,
      ⟨_, memmgr_free_aligned_missing s block hnone hh, ?_, ?_⟩⟩ <;>
    simp [new_trace, failed, unchanged]
  · rw [← find_block_none_iff]
    cases hf : find_block s block.ptr with
    | none =>
      rw [memmgr_free_missing s block hf hh]
      simp [handler_called, new_trace, failed, Outcome.state]
    | some i =>
      rw [memmgr_free_found s block i hf]
      simp [handler_called, new_trace, free_done, Outcome.state]
  · rw [← find_block_none_iff]
    cases hf : find_block s block.ptr with
    | none =>
      rw [memmgr_free_aligned_missing s block hf hh]
      simp [handler_called, new_trace, failed, Outcome.state]
    | some i =>
      rw [memmgr_free_aligned_found s block i hf]
      simp [handler_called, new_trace, free_done, Outcome.state]

theorem free_untracked_witness :
    recovering one_recovering ∧ untracked one_recovering 9 ∧
    ((∃ s1, memmgr_free one_recovering ⟨9, 512⟩ = Outcome.returned s1 () ∧
        new_trace one_recovering s1 = [Event.error Message.free_failed] ∧
        unchanged one_recovering s1) ∧
      (∃ s2, memmgr_free_aligned one_recovering ⟨9, 512⟩ = Outcome.returned s2 () ∧
        new_trace one_recovering s2 = [Event.error Message.free_aligned_failed] ∧
        unchanged one_recovering s2)) ∧
    (handler_called one_recovering (memmgr_free one_recovering ⟨9, 512⟩).state ↔
      untracked one_recovering 9) ∧
    (handler_called one_recovering (memmgr_free_aligned one_recovering ⟨9, 512⟩).state ↔
      untracked one_recovering 9) :=
  have hu : untracked one_recovering 9 := by
    intro i hi
    have h0 : i = 0 := Nat.lt_one_iff.mp hi
    subst h0
    decide
  ⟨rfl, hu, (free_untracked one_recovering ⟨9, 512⟩ rfl).1 hu,
    (free_untracked one_recovering ⟨9, 512⟩ rfl).2⟩

/-- C5: `memmgr_cleanup` returns with live count 0 (no live record), with
`total_freed_bytes` increased by the sum of the recorded sizes of the live
records modulo 2^64, with `allocated_bytes` unchanged, and without calling the
error handler. `total_freed_bytes` is a `size_t` value on entry. -/
theorem cleanup_frees_all (s : Registry) (htyped : s.total_freed_bytes < SIZE_MOD) :
    ∃ s1, memmgr_cleanup s = Outcome.returned s1 () ∧
      s1.block_count = 0 ∧
      live_blocks s1 = [] ∧
      s1.total_freed_bytes = (s.total_freed_bytes + (live_sizes s).sum) % SIZE_MOD ∧
      s1.allocated_bytes = s.allocated_bytes ∧
      ¬ handler_called s s1 := by
  obtain ⟨s1, h0, _, h2, h3, _, _, _, ⟨l, h7, b7⟩, _, h9, _⟩ := memmgr_cleanup_spec s
  refine ⟨s1, h0, h2, by simp [live_blocks, h2], h9 htyped, h3, ?_⟩
  rintro ⟨msg, hmem⟩
  rw [new_trace_append s s1 l h7] at hmem
  exact b7 _ hmem msg rfl

theorem cleanup_frees_all_witness :
    ∃ s1, memmgr_cleanup one_block = Outcome.returned s1 () ∧
      s1.block_count = 0 ∧
      live_blocks s1 = [] ∧
      s1.total_freed_bytes =
        (one_block.total_freed_bytes + (live_sizes one_block).sum) % SIZE_MOD ∧
      s1.allocated_bytes = one_block.allocated_bytes ∧
      ¬ handler_called one_block s1 :=
  cleanup_frees_all one_block (by decide)

/-- C6, at the failing input: on the freshly set up registry the mutex is free,
`memmgr_debug` returns, and the mutex is still held after it has returned. -/
theorem debug_keeps_mutex :
    fresh.mem_mutex = false ∧
    (memmgr_debug fresh).value = some () ∧
    (memmgr_debug fresh).state.mem_mutex = true := by
  decide

/-- C7, as amended: for every call other than `memmgr_init` whose `size_t`
arguments are in range, a handle passed to `memmgr_realloc` carrying the size
stored in the record it matches, `total_freed_bytes` does not decrease, and
`allocated_bytes` does not decrease unless the call is a `memmgr_realloc` that
succeeds with a new size below the size stored in the record; no overflow
meaning that the bytes asked for fit on top of `allocated_bytes` and the bytes
of all live records fit on top of `total_freed_bytes`. -/
theorem counters_monotone (s : Registry) (op : Op) (htyped : op.typed)
    (hhonest : honest_handle s op)
    (hfreed : s.total_freed_bytes + (live_sizes s).sum < SIZE_MOD) :
    (¬ shrinks s op → s.allocated_bytes + requested s op < SIZE_MOD →
      s.allocated_bytes ≤ (step s op).state.allocated_bytes) ∧
    s.total_freed_bytes ≤ (step s op).state.total_freed_bytes := by
  cases op with
  | alloc size r =>
    simp only [step, Outcome.block_state, requested]
    rcases memmgr_alloc_cases s size r with ⟨_, _, h⟩ | ⟨⟨_, _, h3, h4⟩, _⟩
    · rw [h]
      refine ⟨fun _ ha => ?_, le_refl _⟩
      simp [Outcome.state, alloc_done, size_add_of_lt _ _ ha]
    · exact ⟨fun _ _ => le_of_eq h3.symm, le_of_eq h4.symm⟩
  | alloc_aligned size alignment status r =>
    simp only [step, Outcome.block_state, requested]
    rcases memmgr_alloc_aligned_cases s size alignment status r with
      ⟨_, _, h⟩ | ⟨⟨_, _, h3, h4⟩, _⟩
    · rw [h]
      refine ⟨fun _ ha => ?_, le_refl _⟩
      simp [Outcome.state, alloc_done, size_add_of_lt _ _ ha]
    · exact ⟨fun _ _ => le_of_eq h3.symm, le_of_eq h4.symm⟩
  | calloc num size r =>
    simp only [step, Outcome.block_state, requested]
    rcases memmgr_calloc_cases s num size r with ⟨_, _, h⟩ | ⟨⟨_, _, h3, h4⟩, _⟩
    · rw [h]
      refine ⟨fun _ ha => ?_, le_refl _⟩
      simp [Outcome.state, alloc_done, size_add_of_lt _ _ ha]
    · exact ⟨fun _ _ => le_of_eq h3.symm, le_of_eq h4.symm⟩
  | realloc block size r =>
    simp only [step, Outcome.block_state]
    rcases memmgr_realloc_cases s block size r with
      ⟨index, hf, hr, h⟩ | ⟨_, _, ⟨_, _, h3, h4⟩, _⟩
    · rw [h]
      refine ⟨fun hgrow ha => ?_, le_refl _⟩
      have hsize : block.size = (slot s index).block.size := hhonest index hf
      have hle : block.size ≤ size := by
        rw [hsize]
        exact Nat.le_of_not_lt fun hlt => hgrow ⟨index, hf, hr, hlt⟩
      have hreq : requested s (Op.realloc block size r) = size - block.size := by
        simp only [requested, hf, hsize]
      rw [hreq] at ha
      simp [Outcome.state, realloc_done, size_sub_of_le _ _ hle htyped.2,
        size_add_of_lt _ _ ha]
    · exact ⟨fun _ _ => le_of_eq h3.symm, le_of_eq h4.symm⟩
  | free block =>
    simp only [step, Outcome.void_state]
    rcases memmgr_free_cases s block with ⟨index, hf, h⟩ | ⟨_, ⟨_, _, h3, h4⟩, _⟩
    · rw [h]
      refine ⟨fun _ _ => le_refl _, ?_⟩
      have hi := ((find_block_some_iff s block.ptr index).mp hf).1
      have hle := slot_size_le_live s index hi
      have hlt : s.total_freed_bytes + (slot s index).block.size < SIZE_MOD := by omega
      simp [Outcome.state, free_done, size_add_of_lt _ _ hlt]
    · exact ⟨fun _ _ => le_of_eq h3.symm, le_of_eq h4.symm⟩
  | free_aligned block =>
    simp only [step, Outcome.void_state]
    rcases memmgr_free_aligned_cases s block with ⟨index, hf, h⟩ | ⟨_, ⟨_, _, h3, h4⟩, _⟩
    · rw [h]
      refine ⟨fun _ _ => le_refl _, ?_⟩
      have hi := ((find_block_some_iff s block.ptr index).mp hf).1
      have hle := slot_size_le_live s index hi
      have hlt : s.total_freed_bytes + (slot s index).block.size < SIZE_MOD := by omega
      simp [Outcome.state, free_done, size_add_of_lt _ _ hlt]
    · exact ⟨fun _ _ => le_of_eq h3.symm, le_of_eq h4.symm⟩
  | cleanup =>
    simp only [step, Outcome.void_state]
    obtain ⟨s1, h0, _, _, h3, _, _, _, _, _, _, h10⟩ := memmgr_cleanup_spec s
    rw [h0]
    exact ⟨fun _ _ => le_of_eq h3.symm, by simp [Outcome.state, h10 hfreed]⟩
  | debug =>
    simp only [step, Outcome.void_state]
    obtain ⟨s1, h0, _, _, h3, h4, _⟩ := memmgr_debug_spec s
    rw [h0]
    exact ⟨fun _ _ => le_of_eq h3.symm, le_of_eq h4.symm⟩
  | stats =>
    simp only [step, Outcome.void_state]
    obtain ⟨s1, h0, _, _, h3, h4, _⟩ := memmgr_stats_spec s
    rw [h0]
    exact ⟨fun _ _ => le_of_eq h3.symm, le_of_eq h4.symm⟩

theorem counters_monotone_witness :
    (Op.realloc ⟨7, 512⟩ 2048 9).typed ∧
    honest_handle one_block (Op.realloc ⟨7, 512⟩ 2048 9) ∧
    ¬ shrinks one_block (Op.realloc ⟨7, 512⟩ 2048 9) ∧
    one_block.allocated_bytes ≤ (step one_block (Op.realloc ⟨7, 512⟩ 2048 9)).state.allocated_bytes ∧
    one_block.total_freed_bytes ≤
      (step one_block (Op.realloc ⟨7, 512⟩ 2048 9)).state.total_freed_bytes :=
  have h0 : find_block one_block 7 = some 0 := by decide
  have htyped : (Op.realloc ⟨7, 512⟩ 2048 9).typed := by simp [Op.typed, SIZE_MOD]
  have hhonest : honest_handle one_block (Op.realloc ⟨7, 512⟩ 2048 9) := by
    intro i hi
    rw [h0] at hi
    cases hi
    decide
  have hgrow : ¬ shrinks one_block (Op.realloc ⟨7, 512⟩ 2048 9) := by
    rintro ⟨i, hi, _, hlt⟩
    rw [h0] at hi
    cases hi
    revert hlt
    decide
  ⟨htyped, hhonest, hgrow,
    (counters_monotone one_block (Op.realloc ⟨7, 512⟩ 2048 9) htyped hhonest
      (by decide)).1 hgrow (by decide),
    (counters_monotone one_block (Op.realloc ⟨7, 512⟩ 2048 9) htyped hhonest
      (by decide)).2⟩

theorem allocated_bytes_decreases_counterexample :
    (Op.realloc ⟨7, 512⟩ 100 7).typed ∧
    find_block one_block 7 = some 0 ∧
    (slot one_block 0).block = ⟨7, 512⟩ ∧
    one_block.allocated_bytes = 512 ∧
    (step one_block (Op.realloc ⟨7, 512⟩ 100 7)).value = some (some ⟨7, 100⟩) ∧
    (step one_block (Op.realloc ⟨7, 512⟩ 100 7)).state.allocated_bytes = 100 ∧
    ¬ one_block.allocated_bytes ≤
      (step one_block (Op.realloc ⟨7, 512⟩ 100 7)).state.allocated_bytes := by
  refine ⟨by simp [Op.typed, SIZE_MOD], ?_⟩
  decide

/-- C8: `block_count ≤ MAXIMAL_BLOCKS` holds after `memmgr_init` and is kept by
every other public function, whatever the allocator answers and whatever the
handler does; and under it every slot access a call makes is at an index below
`MAXIMAL_BLOCKS` (so each write of the allocation functions is), and every
slot read is at an index below the live count the call started with. -/
theorem block_count_bounded (s : Registry) (op : Op)
    (hinv : s.block_count ≤ MAXIMAL_BLOCKS) :
    (∀ (s0 : Registry) (handler : Option mem_error_handler_t) (log_path : Option String)
      (fopen_result : Option Nat),
      (memmgr_init s0 handler log_path fopen_result).block_count ≤ MAXIMAL_BLOCKS) ∧
    (step s op).state.block_count ≤ MAXIMAL_BLOCKS ∧
    ∀ a ∈ new_accesses s (step s op).state,
      a.index < MAXIMAL_BLOCKS ∧ ∀ j, a = Access.read j → j < s.block_count := by
  refine ⟨?_, ?_⟩
  · intro s0 handler log_path fopen_result
    have : (memmgr_init s0 handler log_path fopen_result).block_count = 0 := by
      unfold memmgr_init
      cases log_path <;> cases fopen_result <;> rfl
    rw [this]; exact Nat.zero_le _
  cases op with
  | alloc size r =>
    simp only [step, Outcome.block_state]
    rcases memmgr_alloc_cases s size r with ⟨hc, _, h⟩ | hq
    · rw [h]; exact alloc_done_accesses s _ _ _ _ hc
    · exact quiet_no_accesses hq hinv
  | alloc_aligned size alignment status r =>
    simp only [step, Outcome.block_state]
    rcases memmgr_alloc_aligned_cases s size alignment status r with ⟨hc, _, h⟩ | hq
    · rw [h]; exact alloc_done_accesses s _ _ _ _ hc
    · exact quiet_no_accesses hq hinv
  | calloc num size r =>
    simp only [step, Outcome.block_state]
    rcases memmgr_calloc_cases s num size r with ⟨hc, _, h⟩ | hq
    · rw [h]; exact alloc_done_accesses s _ _ _ _ hc
    · exact quiet_no_accesses hq hinv
  | realloc block size r =>
    simp only [step, Outcome.block_state]
    rcases memmgr_realloc_cases s block size r with ⟨index, hf, _, h⟩ | ⟨n, hn, hq⟩
    · rw [h]
      have hi := ((find_block_some_iff s block.ptr index).mp hf).1
      refine ⟨hinv, ?_⟩
      rw [new_accesses_append s _
        ((List.range (index + 1)).map Access.read ++ [Access.write index, Access.write index])
        (by simp [realloc_done, Outcome.state])]
      intro a ha
      have hlt : a.index < s.block_count := by
        rcases List.mem_append.mp ha with h1 | h1
        · obtain ⟨j, hj, rfl⟩ := List.mem_map.mp h1
          have := List.mem_range.mp hj
          simp only [Access.index]; omega
        · simp only [List.mem_cons, List.mem_singleton, List.not_mem_nil, or_false] at h1
          rcases h1 with h1 | h1 <;> (rw [h1]; exact hi)
      exact ⟨by omega, fun j hj => by subst hj; exact hlt⟩
    · exact quiet_accesses hq hn hinv
  | free block =>
    simp only [step, Outcome.void_state]
    rcases memmgr_free_cases s block with ⟨index, hf, h⟩ | ⟨_, hq⟩
    · rw [h]
      have hi := ((find_block_some_iff s block.ptr index).mp hf).1
      refine free_done_accesses s index _ _ _ hi hinv ?_
      intro a ha
      simp only [List.mem_cons, List.mem_singleton, List.not_mem_nil, or_false] at ha
      rcases ha with h1 | h1 | h1 <;> (rw [h1]; simp only [Access.index]; omega)
    · exact quiet_accesses hq (le_refl _) hinv
  | free_aligned block =>
    simp only [step, Outcome.void_state]
    rcases memmgr_free_aligned_cases s block with ⟨index, hf, h⟩ | ⟨_, hq⟩
    · rw [h]
      have hi := ((find_block_some_iff s block.ptr index).mp hf).1
      refine free_done_accesses s index _ _ _ hi hinv ?_
      intro a ha
      simp only [List.mem_cons, List.mem_singleton, List.not_mem_nil, or_false] at ha
      rcases ha with h1 | h1 | h1 | h1 <;> (rw [h1]; simp only [Access.index]; omega)
    · exact quiet_accesses hq (le_refl _) hinv
  | cleanup =>
    simp only [step, Outcome.void_state]
    obtain ⟨s1, h0, _, h2, _, _, _, _, _, ⟨l, h8, b8⟩, _, _⟩ := memmgr_cleanup_spec s
    rw [h0]
    refine ⟨by simp [Outcome.state, h2], ?_⟩
    simp only [Outcome.state]
    rw [new_accesses_append s s1 l h8]
    intro a ha
    obtain ⟨j, rfl, hj⟩ := b8 a ha
    exact ⟨by simp only [Access.index]; omega, fun k hk => by cases hk; exact hj⟩
  | debug =>
    simp only [step, Outcome.void_state]
    obtain ⟨s1, h0, _, h2, _, _, _, _, _, _, ⟨l, h8, b8⟩⟩ := memmgr_debug_spec s
    rw [h0]
    refine ⟨by simp [Outcome.state, h2, hinv], ?_⟩
    simp only [Outcome.state]
    rw [new_accesses_append s s1 l h8]
    intro a ha
    obtain ⟨j, rfl, hj⟩ := b8 a ha
    exact ⟨by simp only [Access.index]; omega, fun k hk => by cases hk; exact hj⟩
  | stats =>
    simp only [step, Outcome.void_state]
    obtain ⟨s1, h0, _, h2, _, _, _, _, _, _, h10⟩ := memmgr_stats_spec s
    rw [h0]
    refine ⟨by simp [Outcome.state, h2, hinv], ?_⟩
    simp only [Outcome.state]
    rw [new_accesses_append s s1 [] (by simp [h10])]
    intro a ha
    cases ha

theorem block_count_bounded_witness :
    (∀ (s0 : Registry) (handler : Option mem_error_handler_t) (log_path : Option String)
      (fopen_result : Option Nat),
      (memmgr_init s0 handler log_path fopen_result).block_count ≤ MAXIMAL_BLOCKS) ∧
    (step one_block (Op.free ⟨7, 512⟩)).state.block_count ≤ MAXIMAL_BLOCKS ∧
    ∀ a ∈ new_accesses one_block (step one_block (Op.free ⟨7, 512⟩)).state,
      a.index < MAXIMAL_BLOCKS ∧ ∀ j, a = Access.read j → j < one_block.block_count :=
  block_count_bounded one_block (Op.free ⟨7, 512⟩) (by decide)

/-- C9: under the assumption on the allocator, in every state reached from
`memmgr_init` by calls of the other public functions, no two live records hold
the same pointer, and a pointer is held by a live record if and only if it is
outstanding by the history: returned by a successful allocation or
reallocation and since neither freed nor replaced. -/
theorem live_pointers_track_history (s : Registry) (held : List Nat)
    (h : Reachable s held) :
    distinct_ptrs s ∧ ∀ p, tracked s p ↔ p ∈ held :=
  (reachable_tracks h).2

theorem live_pointers_track_history_witness :
    distinct_ptrs (memmgr_realloc one_block ⟨7, 512⟩ 2048 9).state ∧
    ∀ p, tracked (memmgr_realloc one_block ⟨7, 512⟩ 2048 9).state p ↔
      p ∈ outstanding_after (outstanding_after [] (Op.alloc 512 7) (some ⟨7, 512⟩))
        (Op.realloc ⟨7, 512⟩ 2048 9) (some ⟨9, 2048⟩) :=
  live_pointers_track_history _ _
    (Reachable.call one_block _ (Op.realloc ⟨7, 512⟩ 2048 9) _ (some ⟨9, 2048⟩)
      (Reachable.call fresh [] (Op.alloc 512 7) one_block (some ⟨7, 512⟩)
        (Reachable.init Registry.static none none none)
        (by intro _ i hi; exact absurd hi (Nat.not_lt_zero i)) rfl)
      (by
        intro _
        refine Or.inr ?_
        intro i hi
        have h0 : i = 0 := Nat.lt_one_iff.mp hi
        subst h0
        decide)
      rfl)

/-- C10: after any run from `memmgr_init` of successful allocations, the
allocator never returning a pointer twice, and of `memmgr_free` or
`memmgr_free_aligned` calls on handles returned earlier and not yet freed,
`memmgr_debug` returns having printed table slots `0 .. block_count - 1`; the
`(pointer, size)` pairs printed are as many as the handles returned less the
handles freed, none is printed twice, and they are, up to order, the handles
returned and not freed. -/
theorem dump_lists_outstanding (s : Registry) (returned freed : List mem_block_t)
    (h : AllocFreeRun s returned freed) :
    ∃ s1, memmgr_debug s = Outcome.returned s1 () ∧
      dumped (new_trace s s1) = live_blocks s ∧
      (dumped (new_trace s s1)).length = returned.length - freed.length ∧
      (dumped (new_trace s s1)).Nodup ∧
      List.Perm (dumped (new_trace s s1)) (returned.filter fun b => b ∉ freed) := by
  obtain ⟨_, h2, h3, h4, _, h6⟩ := run_accounts h
  obtain ⟨s1, h0, _, _, _, _, _, _, _, htrace, _⟩ := memmgr_debug_spec s
  have hd := dumped_debug s s1 htrace
  refine ⟨s1, h0, hd, ?_, ?_, ?_⟩
  · rw [hd]
    simp only [live_blocks, List.length_map, List.length_range]
    omega
  · rw [hd]; exact live_blocks_nodup h2
  · rw [hd, List.perm_ext_iff_of_nodup (live_blocks_nodup h2) (h4.filter _)]
    intro b
    rw [mem_live_blocks, h3 b, List.mem_filter]
    simp

theorem dump_lists_outstanding_witness :
    ∃ s1, memmgr_debug second_block_left = Outcome.returned s1 () ∧
      dumped (new_trace second_block_left s1) = live_blocks second_block_left ∧
      (dumped (new_trace second_block_left s1)).length =
        [(⟨8, 1024⟩ : mem_block_t), ⟨7, 1024⟩].length - [(⟨7, 1024⟩ : mem_block_t)].length ∧
      (dumped (new_trace second_block_left s1)).Nodup ∧
      List.Perm (dumped (new_trace second_block_left s1))
        ([(⟨8, 1024⟩ : mem_block_t), ⟨7, 1024⟩].filter
          fun b => b ∉ [(⟨7, 1024⟩ : mem_block_t)]) :=
  dump_lists_outstanding second_block_left [⟨8, 1024⟩, ⟨7, 1024⟩] [⟨7, 1024⟩]
    (AllocFreeRun.free two_blocks [⟨8, 1024⟩, ⟨7, 1024⟩] [] ⟨7, 1024⟩ second_block_left
      (AllocFreeRun.alloc (memmgr_alloc fresh 1024 7).state [⟨7, 1024⟩] []
        (Op.alloc 1024 8) two_blocks ⟨8, 1024⟩
        (AllocFreeRun.alloc fresh [] [] (Op.alloc 1024 7) (memmgr_alloc fresh 1024 7).state
          ⟨7, 1024⟩ (AllocFreeRun.init Registry.static none none none)
          True.intro rfl (by decide) (by intro h hh; cases hh))
        True.intro rfl (by decide) (by decide))
      (by decide) (by decide) rfl)

/-- C11: for every state, a second `memmgr_cleanup` right after a first one
returns with the table, the live count, `allocated_bytes`, `total_freed_bytes`
and `log_file` as the first call left them, `log_file` being null already; it
makes no call at all (frees nothing, closes nothing) and so does not call the
error handler. -/
theorem cleanup_idempotent (s : Registry) :
    ∃ s1 s2, memmgr_cleanup s = Outcome.returned s1 () ∧
      memmgr_cleanup s1 = Outcome.returned s2 () ∧
      s2.allocated_blocks = s1.allocated_blocks ∧
      s2.block_count = s1.block_count ∧
      s2.allocated_bytes = s1.allocated_bytes ∧
      s2.total_freed_bytes = s1.total_freed_bytes ∧
      s2.log_file = s1.log_file ∧
      s1.log_file = none ∧
      new_trace s1 s2 = [] ∧
      ¬ handler_called s1 s2 := by
  obtain ⟨s1, h0, _, h2, _, _, h5, _⟩ := memmgr_cleanup_spec s
  have htrace : new_trace s1 (failed s1 [] []) = [] := by
    simp [new_trace, failed]
  refine ⟨s1, failed s1 [] [], h0, memmgr_cleanup_empty s1 h2 h5, rfl, rfl, rfl, rfl, rfl,
    h5, htrace, ?_⟩
  rintro ⟨msg, hmem⟩
  rw [htrace] at hmem
  cases hmem

/-- C12: with a handler that returns, when no live record holds the pointer of
the handle, or when the underlying `realloc` returns null, `memmgr_realloc`
returns the null block after exactly one call of the error handler, with the
table, the live count, `allocated_bytes` and `total_freed_bytes` unchanged; and
when no live record holds the pointer the handler call is the only call made,
so `realloc` is not called. -/
theorem realloc_failure (s : Registry) (block : mem_block_t) (size r : Nat)
    (hh : recovering s) (hfail : untracked s block.ptr ∨ r = 0) :
    ∃ s1, memmgr_realloc s block size r = Outcome.returned s1 null_block ∧
      unchanged s s1 ∧
      handler_calls (new_trace s s1) = 1 ∧
      (untracked s block.ptr →
        new_trace s s1 = [Event.error Message.realloc_failed]) := by
  cases hf : find_block s block.ptr with
  | none =>
    refine ⟨_, memmgr_realloc_missing s block size r hf hh, ?_, ?_, ?_⟩
    · simp [unchanged, failed]
    · simp [new_trace, failed, handler_calls]
    · intro _; simp [new_trace, failed]
  | some index =>
    have hr : r = 0 := by
      rcases hfail with hu | hr
      · exact absurd hf (by rw [(find_block_none_iff s block.ptr).mpr hu]; simp)
      · exact hr
    subst hr
    refine ⟨_, memmgr_realloc_null s block size index hf hh, ?_, ?_, ?_⟩
    · simp [unchanged, failed]
    · simp [new_trace, failed, handler_calls]
    · intro hu
      exact absurd hf (by rw [(find_block_none_iff s block.ptr).mpr hu]; simp)

theorem realloc_failure_witness :
    recovering one_recovering ∧
    (∃ s1, memmgr_realloc one_recovering ⟨7, 512⟩ 2048 0 = Outcome.returned s1 null_block ∧
      unchanged one_recovering s1 ∧
      handler_calls (new_trace one_recovering s1) = 1) ∧
    untracked one_recovering 9 ∧
    (∃ s1, memmgr_realloc one_recovering ⟨9, 512⟩ 2048 11 = Outcome.returned s1 null_block ∧
      unchanged one_recovering s1 ∧
      handler_calls (new_trace one_recovering s1) = 1 ∧
      new_trace one_recovering s1 = [Event.error Message.realloc_failed]) :=
  have hu : untracked one_recovering 9 := by
    intro i hi
    have h0 : i = 0 := Nat.lt_one_iff.mp hi
    subst h0
    decide
  ⟨rfl,
    (realloc_failure one_recovering ⟨7, 512⟩ 2048 0 rfl (Or.inr rfl)).imp
      fun _ h => ⟨h.1, h.2.1, h.2.2.1⟩,
    hu,
    (realloc_failure one_recovering ⟨9, 512⟩ 2048 11 rfl (Or.inl hu)).imp
      fun _ h => ⟨h.1, h.2.1, h.2.2.1, h.2.2.2 hu⟩⟩

/-- C13: when `n < MAXIMAL_BLOCKS` records are live and the allocator returns
the non-null pointer `p`, `memmgr_alloc(size)` and
`memmgr_alloc_aligned(size, alignment)` each return the handle `(p, size)`,
store a record with that pointer and size in slot `n`, make the live count
`n + 1`, add `size` to `allocated_bytes` modulo 2^64, leave slots `0 .. n - 1`
and `total_freed_bytes` unchanged, and do not call the error handler. -/
theorem alloc_success (s : Registry) (size alignment p : Nat)
    (hn : s.block_count < MAXIMAL_BLOCKS) (hp : p ≠ 0) :
    (∃ s1, memmgr_alloc s size p = Outcome.returned s1 ⟨p, size⟩ ∧
      (slot s1 s.block_count).block = ⟨p, size⟩ ∧
      s1.block_count = s.block_count + 1 ∧
      s1.allocated_bytes = (s.allocated_bytes + size) % SIZE_MOD ∧
      (∀ j, j < s.block_count → slot s1 j = slot s j) ∧
      s1.total_freed_bytes = s.total_freed_bytes ∧
      ¬ handler_called s s1) ∧
    (∃ s2, memmgr_alloc_aligned s size alignment 0 p = Outcome.returned s2 ⟨p, size⟩ ∧
      (slot s2 s.block_count).block = ⟨p, size⟩ ∧
      s2.block_count = s.block_count + 1 ∧
      s2.allocated_bytes = (s.allocated_bytes + size) % SIZE_MOD ∧
      (∀ j, j < s.block_count → slot s2 j = slot s j) ∧
      s2.total_freed_bytes = s.total_freed_bytes ∧
      ¬ handler_called s s2) := by
  have hw : aligned_alloc_wrapper 0 p = p := by simp [aligned_alloc_wrapper]
  have hw2 : aligned_alloc_wrapper 0 p ≠ 0 := by rw [hw]; exact hp
  have h2 := memmgr_alloc_aligned_ok s size alignment 0 p hn hw2
  rw [hw] at h2
  refine ⟨⟨_, memmgr_alloc_ok s size p hn hp, ?_, rfl, rfl, ?_, rfl, ?_⟩,
    ⟨_, h2, ?_, rfl, rfl, ?_, rfl, ?_⟩⟩
  · rw [alloc_done_slot _ _ _ _ _ hn, if_pos rfl]
  · intro j hj
    rw [alloc_done_slot _ _ _ _ _ hn, if_neg (by omega)]
  · rintro ⟨msg, hmem⟩
    simp [new_trace, alloc_done] at hmem
  · rw [alloc_done_slot _ _ _ _ _ hn, if_pos rfl]
  · intro j hj
    rw [alloc_done_slot _ _ _ _ _ hn, if_neg (by omega)]
  · rintro ⟨msg, hmem⟩
    simp [new_trace, alloc_done] at hmem

theorem alloc_success_witness :
    (∃ s1, memmgr_alloc one_block 1024 9 = Outcome.returned s1 ⟨9, 1024⟩ ∧
      (slot s1 one_block.block_count).block = ⟨9, 1024⟩ ∧
      s1.block_count = one_block.block_count + 1 ∧
      s1.allocated_bytes = (one_block.allocated_bytes + 1024) % SIZE_MOD ∧
      (∀ j, j < one_block.block_count → slot s1 j = slot one_block j) ∧
      s1.total_freed_bytes = one_block.total_freed_bytes ∧
      ¬ handler_called one_block s1) ∧
    (∃ s2, memmgr_alloc_aligned one_block 1024 64 0 9 = Outcome.returned s2 ⟨9, 1024⟩ ∧
      (slot s2 one_block.block_count).block = ⟨9, 1024⟩ ∧
      s2.block_count = one_block.block_count + 1 ∧
      s2.allocated_bytes = (one_block.allocated_bytes + 1024) % SIZE_MOD ∧
      (∀ j, j < one_block.block_count → slot s2 j = slot one_block j) ∧
      s2.total_freed_bytes = one_block.total_freed_bytes ∧
      ¬ handler_called one_block s2) :=
  alloc_success one_block 1024 64 9 (by decide) (by decide)

/-- C14: when fewer than `MAXIMAL_BLOCKS` records are live, `calloc` returns a
non-null pointer and the product `num * size` is below 2^64,
`memmgr_calloc(num, size)` returns a handle whose size is the product
`num * size`, stores a record of that size in the first free slot, makes the
live count one more, and adds `num * size` to `allocated_bytes` modulo 2^64. -/
theorem calloc_success (s : Registry) (num size r : Nat)
    (hn : s.block_count < MAXIMAL_BLOCKS) (hr : r ≠ 0) (hprod : num * size < SIZE_MOD) :
    ∃ s1, memmgr_calloc s num size r = Outcome.returned s1 ⟨r, num * size⟩ ∧
      (slot s1 s.block_count).block = ⟨r, num * size⟩ ∧
      s1.block_count = s.block_count + 1 ∧
      s1.allocated_bytes = (s.allocated_bytes + num * size) % SIZE_MOD := by
  have hm : size_mul num size = num * size := Nat.mod_eq_of_lt hprod
  have h := memmgr_calloc_ok s num size r hn hr
  rw [hm] at h
  refine ⟨_, h, ?_, rfl, rfl⟩
  rw [alloc_done_slot _ _ _ _ _ hn, if_pos rfl]

theorem calloc_success_witness :
    ∃ s1, memmgr_calloc fresh 10 256 7 = Outcome.returned s1 ⟨7, 10 * 256⟩ ∧
      (slot s1 fresh.block_count).block = ⟨7, 10 * 256⟩ ∧
      s1.block_count = fresh.block_count + 1 ∧
      s1.allocated_bytes = (fresh.allocated_bytes + 10 * 256) % SIZE_MOD :=
  calloc_success fresh 10 256 7 (by decide) (by decide) (by decide)

/-- C15: from any prior state, `memmgr_init(nullptr, nullptr)`, then
`memmgr_alloc(1024)` with `malloc` returning a non-null pointer, then
`memmgr_free` of the block returned, then `memmgr_stats`: every call returns
and `memmgr_stats` prints allocated 1024, freed 1024, total 2048 and usage 50,
the usage being `allocated / total * 100` in exact rational arithmetic. -/
theorem scenario_report (s0 : Registry) (fopen_result : Option Nat) (r : Nat) (hr : r ≠ 0) :
    ∃ s2 s3 s4,
      memmgr_alloc (memmgr_init s0 none none fopen_result) 1024 r =
        Outcome.returned s2 ⟨r, 1024⟩ ∧
      memmgr_free s2 ⟨r, 1024⟩ = Outcome.returned s3 () ∧
      memmgr_stats s3 = Outcome.returned s4 () ∧
      new_trace s3 s4 = [Event.stats_allocated 1024, Event.stats_freed 1024,
        Event.stats_total 2048, Event.stats_usage (Usage.value 50)] ∧
      usage_percent 1024 2048 = Usage.value ((1024 : ℚ) / ((1024 : ℚ) + 1024) * 100) := by
  obtain ⟨_, i2, i3, i4, _⟩ := memmgr_init_spec s0 none none fopen_result
  generalize memmgr_init s0 none none fopen_result = s1 at i2 i3 i4
  have hc : s1.block_count < MAXIMAL_BLOCKS := by rw [i2]; decide
  have hfind : find_block (alloc_done s1 ⟨r, 1024⟩ 94 (Event.malloc 1024 r) Message.allocated) r
      = some 0 := by
    rw [find_block_some_iff]
    refine ⟨by simp [alloc_done], ?_, fun j hj => absurd hj (Nat.not_lt_zero j)⟩
    rw [alloc_done_slot _ _ _ _ _ hc, if_pos i2.symm]
  obtain ⟨s4, h4, _, _, h43, h44, _, _, _, h48, _⟩ := memmgr_stats_spec
    (free_done (alloc_done s1 ⟨r, 1024⟩ 94 (Event.malloc 1024 r) Message.allocated) 0 r
      Message.freed ((List.range (0 + 1)).map Access.read ++
        [Access.read 0, Access.read ((alloc_done s1 ⟨r, 1024⟩ 94 (Event.malloc 1024 r)
          Message.allocated).block_count - 1), Access.write 0]))
  have ha : (free_done (alloc_done s1 ⟨r, 1024⟩ 94 (Event.malloc 1024 r) Message.allocated) 0 r
      Message.freed ((List.range (0 + 1)).map Access.read ++
        [Access.read 0, Access.read ((alloc_done s1 ⟨r, 1024⟩ 94 (Event.malloc 1024 r)
          Message.allocated).block_count - 1), Access.write 0])).allocated_bytes = 1024 := by
    simp [free_done, alloc_done, i3, size_add, SIZE_MOD]
  have hf : (free_done (alloc_done s1 ⟨r, 1024⟩ 94 (Event.malloc 1024 r) Message.allocated) 0 r
      Message.freed ((List.range (0 + 1)).map Access.read ++
        [Access.read 0, Access.read ((alloc_done s1 ⟨r, 1024⟩ 94 (Event.malloc 1024 r)
          Message.allocated).block_count - 1), Access.write 0])).total_freed_bytes = 1024 := by
    have hs : (slot (alloc_done s1 ⟨r, 1024⟩ 94 (Event.malloc 1024 r) Message.allocated)
        0).block.size = 1024 := by
      rw [alloc_done_slot _ _ _ _ _ hc, if_pos i2.symm]
    simp only [free_done, hs]
    simp [alloc_done, i4, size_add, SIZE_MOD]
  refine ⟨_, _, s4, memmgr_alloc_ok s1 1024 r hc hr, memmgr_free_found _ ⟨r, 1024⟩ 0 hfind,
    h4, ?_, ?_⟩
  · rw [new_trace_append _ s4 _ h48, ha, hf]
    have ht : size_add 1024 1024 = 2048 := by norm_num [size_add, SIZE_MOD]
    rw [ht, usage_percent_half]
  · rw [usage_percent_half]
    exact congrArg Usage.value (by norm_num)

theorem scenario_report_witness :
    ∃ s2 s3 s4,
      memmgr_alloc (memmgr_init one_block none none none) 1024 7 =
        Outcome.returned s2 ⟨7, 1024⟩ ∧
      memmgr_free s2 ⟨7, 1024⟩ = Outcome.returned s3 () ∧
      memmgr_stats s3 = Outcome.returned s4 () ∧
      new_trace s3 s4 = [Event.stats_allocated 1024, Event.stats_freed 1024,
        Event.stats_total 2048, Event.stats_usage (Usage.value 50)] ∧
      usage_percent 1024 2048 = Usage.value ((1024 : ℚ) / ((1024 : ℚ) + 1024) * 100) :=
  scenario_report one_block none 7 (by decide)

/-- C16, at the failing input: right after `memmgr_init(nullptr, nullptr)` both
counters are zero, and `memmgr_stats` still evaluates the division by the zero
total: the usage it prints is the NaN of `0.0 / 0.0`, not a defined 0. -/
theorem report_divides_by_zero :
    fresh.allocated_bytes = 0 ∧ fresh.total_freed_bytes = 0 ∧
    (memmgr_stats fresh).value = some () ∧
    new_trace fresh (memmgr_stats fresh).state =
      [Event.stats_allocated 0, Event.stats_freed 0, Event.stats_total 0,
        Event.stats_usage Usage.nan] ∧
    Event.stats_usage (Usage.value 0) ∉ new_trace fresh (memmgr_stats fresh).state := by
  obtain ⟨s1, h0, _, _, _, _, _, _, _, h8, _⟩ := memmgr_stats_spec fresh
  have ht : new_trace fresh s1 = [Event.stats_allocated 0, Event.stats_freed 0,
      Event.stats_total 0, Event.stats_usage Usage.nan] := by
    rw [new_trace_append fresh s1 _ h8]
    rfl
  rw [h0]
  refine ⟨rfl, rfl, rfl, ht, ?_⟩
  simp only [Outcome.state]
  rw [ht]
  simp

/-- C17: from every prior state, with every handler argument and log path,
`memmgr_init` leaves live count 0, `allocated_bytes` 0, `total_freed_bytes` 0
and every slot of the table zero; it installs the handler given, or the
default handler when the argument is null; and it does not call the error
handler, in particular not when `fopen` fails, in which case `log_file` is
null. -/
theorem init_resets (s : Registry) (handler : Option mem_error_handler_t)
    (log_path : Option String) (fopen_result : Option Nat) :
    (memmgr_init s handler log_path fopen_result).block_count = 0 ∧
    (memmgr_init s handler log_path fopen_result).allocated_bytes = 0 ∧
    (memmgr_init s handler log_path fopen_result).total_freed_bytes = 0 ∧
    (∀ j, slot (memmgr_init s handler log_path fopen_result) j = zero_tracker) ∧
    (∀ h, handler = some h →
      (memmgr_init s handler log_path fopen_result).global_error_handler = some h) ∧
    (handler = none →
      (memmgr_init s handler log_path fopen_result).global_error_handler =
        some mem_error_handler_t.default_global_error_handler) ∧
    ¬ handler_called s (memmgr_init s handler log_path fopen_result) ∧
    (log_path ≠ none → fopen_result = none →
      (memmgr_init s handler log_path fopen_result).log_file = none ∧
      Event.open_failed ∈ new_trace s (memmgr_init s handler log_path fopen_result)) := by
  obtain ⟨h1, h2, h3, h4, h5, _, _, ⟨l, h8, b8⟩⟩ :=
    memmgr_init_spec s handler log_path fopen_result
  refine ⟨h2, h3, h4, ?_, ?_, ?_, ?_, ?_⟩
  · intro j
    unfold slot
    rw [h1, Table.get_zero]
  · intro h hh
    rw [h5, hh]; rfl
  · intro hh
    rw [h5, hh]; rfl
  · rintro ⟨msg, hmem⟩
    rw [new_trace_append _ _ l h8] at hmem
    exact b8 _ hmem msg rfl
  · intro hp hf
    subst hf
    cases log_path with
    | none => exact absurd rfl hp
    | some path =>
      refine ⟨by cases handler <;> rfl, ?_⟩
      have ht : (memmgr_init s handler (some path) none).trace =
          s.trace ++ [Event.fopen none, Event.open_failed, Event.atexit_cleanup] := by
        cases handler <;> simp [memmgr_init, emit]
      rw [new_trace_append _ _ _ ht]
      simp

theorem init_resets_witness :
    (memmgr_init one_block (some (mem_error_handler_t.custom true)) (some "memmgr.log")
      none).block_count = 0 ∧
    (memmgr_init one_block (some (mem_error_handler_t.custom true)) (some "memmgr.log")
      none).allocated_bytes = 0 ∧
    (memmgr_init one_block (some (mem_error_handler_t.custom true)) (some "memmgr.log")
      none).total_freed_bytes = 0 ∧
    (memmgr_init one_block (some (mem_error_handler_t.custom true)) (some "memmgr.log")
      none).global_error_handler = some (mem_error_handler_t.custom true) ∧
    (memmgr_init one_block none none none).global_error_handler =
      some mem_error_handler_t.default_global_error_handler ∧
    (memmgr_init one_block (some (mem_error_handler_t.custom true)) (some "memmgr.log")
      none).log_file = none ∧
    Event.open_failed ∈ new_trace one_block
      (memmgr_init one_block (some (mem_error_handler_t.custom true)) (some "memmgr.log")
        none) :=
  have h := init_resets one_block (some (mem_error_handler_t.custom true))
    (some "memmgr.log") none
  have h2 := init_resets one_block none none none
  have h3 := h.2.2.2.2.2.2.2 (by simp) rfl
  ⟨h.1, h.2.1, h.2.2.1, h.2.2.2.2.1 _ rfl, h2.2.2.2.2.2.1 rfl, h3.1, h3.2⟩

/-- C18: whenever `memmgr_alloc_aligned(size, alignment)` returns a block with a
non-null pointer, the one allocator call it made is `posix_memalign` asked for
`alignment` and `size`, that call reported success, and the pointer of the
block returned, and of the record stored for it, is the pointer that call
produced; so both are multiples of `alignment` when the pointer produced for
that request is. -/
theorem aligned_pointer (s : Registry) (size alignment status p : Nat) (s1 : Registry)
    (b : mem_block_t)
    (h : memmgr_alloc_aligned s size alignment status p = Outcome.returned s1 b)
    (hb : b.ptr ≠ 0) :
    new_trace s s1 = [Event.posix_memalign alignment size status p,
      Event.log s.log_file Message.allocated_aligned] ∧
    status = 0 ∧ b = ⟨p, size⟩ ∧ (slot s1 s.block_count).block = ⟨p, size⟩ ∧
    (p % alignment = 0 →
      b.ptr % alignment = 0 ∧ (slot s1 s.block_count).block.ptr % alignment = 0) := by
  rcases memmgr_alloc_aligned_cases s size alignment status p with ⟨hc, hw, h2⟩ | hq
  · rw [h2] at h
    simp only [Outcome.returned.injEq] at h
    obtain ⟨hs, hbb⟩ := h
    have hst : status = 0 := by
      by_contra hne
      exact hw (by simp [aligned_alloc_wrapper, hne])
    have hwp : aligned_alloc_wrapper status p = p := by
      simp [aligned_alloc_wrapper, hst]
    have hslot : (slot s1 s.block_count).block = ⟨p, size⟩ := by
      rw [← hs, alloc_done_slot _ _ _ _ _ hc, if_pos rfl, hwp]
    have hbp : b = ⟨p, size⟩ := by rw [← hbb, hwp]
    have htrace : new_trace s s1 = [Event.posix_memalign alignment size status p,
        Event.log s.log_file Message.allocated_aligned] := by
      rw [← hs]
      exact new_trace_append s _ _ rfl
    exact ⟨htrace, hst, hbp, hslot,
      fun hp => ⟨by rw [hbp]; exact hp, by rw [hslot]; exact hp⟩⟩
  · have := (quiet_returned hq h).2
    subst this
    exact absurd rfl hb

theorem aligned_pointer_witness :
    new_trace fresh (memmgr_alloc_aligned fresh 1024 64 0 128).state =
      [Event.posix_memalign 64 1024 0 128,
        Event.log fresh.log_file Message.allocated_aligned] ∧
    (0 : Nat) = 0 ∧ (⟨128, 1024⟩ : mem_block_t) = ⟨128, 1024⟩ ∧
    (slot (memmgr_alloc_aligned fresh 1024 64 0 128).state fresh.block_count).block =
      ⟨128, 1024⟩ ∧
    (⟨128, 1024⟩ : mem_block_t).ptr % 64 = 0 ∧
    (slot (memmgr_alloc_aligned fresh 1024 64 0 128).state
      fresh.block_count).block.ptr % 64 = 0 :=
  have h := aligned_pointer fresh 1024 64 0 128
    (memmgr_alloc_aligned fresh 1024 64 0 128).state ⟨128, 1024⟩ rfl (by decide)
  ⟨h.1, h.2.1, h.2.2.1, h.2.2.2.1, h.2.2.2.2 (by decide)⟩

/-- C19: when `n ≤ MAXIMAL_BLOCKS` records are live and slot `i` is the first
live slot holding the pointer of the handle, `memmgr_free` and
`memmgr_free_aligned` return with the same table, live count and counters:
the live count is `n - 1`, slot `i` holds what slot `n - 1` held, every other
slot below `n - 1` is unchanged, `total_freed_bytes` has grown by the size
stored in slot `i` (modulo 2^64), whatever size the handle carries,
`allocated_bytes` is unchanged, and the error handler is not called. -/
theorem free_swap_remove (s : Registry) (block : mem_block_t) (i : Nat)
    (hinv : s.block_count ≤ MAXIMAL_BLOCKS) (hi : i < s.block_count)
    (hmatch : (slot s i).block.ptr = block.ptr)
    (hfirst : ∀ j, j < i → (slot s j).block.ptr ≠ block.ptr) :
    ∃ s1 s2, memmgr_free s block = Outcome.returned s1 () ∧
      memmgr_free_aligned s block = Outcome.returned s2 () ∧
      s1.allocated_blocks = s2.allocated_blocks ∧
      s1.block_count = s2.block_count ∧
      s1.allocated_bytes = s2.allocated_bytes ∧
      s1.total_freed_bytes = s2.total_freed_bytes ∧
      s1.block_count = s.block_count - 1 ∧
      slot s1 i = slot s (s.block_count - 1) ∧
      (∀ j, j < s.block_count - 1 → j ≠ i → slot s1 j = slot s j) ∧
      s1.total_freed_bytes = (s.total_freed_bytes + (slot s i).block.size) % SIZE_MOD ∧
      s1.allocated_bytes = s.allocated_bytes ∧
      ¬ handler_called s s1 ∧ ¬ handler_called s s2 := by
  have hf : find_block s block.ptr = some i :=
    (find_block_some_iff s block.ptr i).mpr ⟨hi, hmatch, hfirst⟩
  have hi2 : i < MAXIMAL_BLOCKS := by omega
  refine ⟨_, _, memmgr_free_found s block i hf, memmgr_free_aligned_found s block i hf,
    rfl, rfl, rfl, rfl, rfl, ?_, ?_, rfl, rfl, ?_, ?_⟩
  · rw [free_done_slot _ _ _ _ _ hi2, if_pos rfl]
  · intro j _ hne
    rw [free_done_slot _ _ _ _ _ hi2, if_neg hne]
  · rintro ⟨msg, hmem⟩
    simp [new_trace, free_done] at hmem
  · rintro ⟨msg, hmem⟩
    simp [new_trace, free_done] at hmem

theorem free_swap_remove_witness :
    ∃ s1 s2, memmgr_free two_blocks ⟨7, 5⟩ = Outcome.returned s1 () ∧
      memmgr_free_aligned two_blocks ⟨7, 5⟩ = Outcome.returned s2 () ∧
      s1.allocated_blocks = s2.allocated_blocks ∧
      s1.block_count = s2.block_count ∧
      s1.allocated_bytes = s2.allocated_bytes ∧
      s1.total_freed_bytes = s2.total_freed_bytes ∧
      s1.block_count = two_blocks.block_count - 1 ∧
      slot s1 0 = slot two_blocks (two_blocks.block_count - 1) ∧
      (∀ j, j < two_blocks.block_count - 1 → j ≠ 0 → slot s1 j = slot two_blocks j) ∧
      s1.total_freed_bytes =
        (two_blocks.total_freed_bytes + (slot two_blocks 0).block.size) % SIZE_MOD ∧
      s1.allocated_bytes = two_blocks.allocated_bytes ∧
      ¬ handler_called two_blocks s1 ∧ ¬ handler_called two_blocks s2 :=
  free_swap_remove two_blocks ⟨7, 5⟩ 0 (by decide) (by decide) (by decide)
    (fun j hj => absurd hj (Nat.not_lt_zero j))

/-- C20: in every state reached from `memmgr_init` by calls of the other public
functions that return, whatever the allocator answers, every handle passed to
`memmgr_realloc` carrying the size stored in its matching record,
`allocated_bytes - total_freed_bytes` (in `size_t`) is the sum of the sizes of
the live records modulo 2^64; so `allocated_bytes = total_freed_bytes` whenever
no record is live, and after a `memmgr_cleanup` from such a state. -/
theorem bytes_conserved (s : Registry) (h : HonestRun s) :
    size_sub s.allocated_bytes s.total_freed_bytes = (live_sizes s).sum % SIZE_MOD ∧
    (s.block_count = 0 → s.allocated_bytes = s.total_freed_bytes) ∧
    (∃ s1, memmgr_cleanup s = Outcome.returned s1 () ∧
      s1.allocated_bytes = s1.total_freed_bytes) := by
  have empty : ∀ t : Registry, conserved t → t.block_count = 0 →
      t.allocated_bytes = t.total_freed_bytes := by
    intro t ht h0
    obtain ⟨_, _, t3, t4⟩ := ht
    have hl : (live_sizes t).sum = 0 := by simp [live_sizes, h0]
    rw [t4, hl, Nat.add_zero, Nat.mod_eq_of_lt t3]
  have hc := honest_run_conserved h
  refine ⟨?_, empty s hc, ?_⟩
  · obtain ⟨_, h2, h3, h4⟩ := hc
    rw [h4]
    generalize (live_sizes s).sum = total
    generalize s.total_freed_bytes = freed at h3
    unfold size_sub SIZE_MOD at *
    norm_num at h3 ⊢
    omega
  · obtain ⟨s1, h0, _, h2, _⟩ := memmgr_cleanup_spec s
    have hrun : HonestRun s1 :=
      HonestRun.call s Op.cleanup s1 none h True.intro
        (by show (memmgr_cleanup s).void = _; rw [h0]; rfl)
    exact ⟨s1, h0, empty s1 (honest_run_conserved hrun) h2⟩

theorem bytes_conserved_witness :
    size_sub (memmgr_free one_block ⟨7, 512⟩).state.allocated_bytes
        (memmgr_free one_block ⟨7, 512⟩).state.total_freed_bytes =
      (live_sizes (memmgr_free one_block ⟨7, 512⟩).state).sum % SIZE_MOD ∧
    (memmgr_free one_block ⟨7, 512⟩).state.allocated_bytes =
      (memmgr_free one_block ⟨7, 512⟩).state.total_freed_bytes ∧
    (∃ s1, memmgr_cleanup (memmgr_realloc one_block ⟨7, 512⟩ 2048 9).state =
        Outcome.returned s1 () ∧
      s1.allocated_bytes = s1.total_freed_bytes) :=
  have h1 := bytes_conserved (memmgr_free one_block ⟨7, 512⟩).state
    (HonestRun.call one_block (Op.free ⟨7, 512⟩) _ none
      (HonestRun.call fresh (Op.alloc 512 7) one_block (some ⟨7, 512⟩)
        (HonestRun.init Registry.static none none none) True.intro rfl)
      True.intro rfl)
  have h2 := bytes_conserved (memmgr_realloc one_block ⟨7, 512⟩ 2048 9).state
    (HonestRun.call one_block (Op.realloc ⟨7, 512⟩ 2048 9) _ (some ⟨9, 2048⟩)
      (HonestRun.call fresh (Op.alloc 512 7) one_block (some ⟨7, 512⟩)
        (HonestRun.init Registry.static none none none) True.intro rfl)
      (by
        intro i hi
        have h0 : find_block one_block 7 = some 0 := by decide
        rw [h0] at hi
        cases hi
        decide)
      rfl)
  ⟨h1.1, h1.2.1 (by decide), h2.2.2⟩

end Memmgr
